import Mathlib

/-!
Verification model of the allocator in src/myLab/myAllocator.c.

The allocator manages an arena that is fully partitioned into a gapless chain
of blocks.  Each block is a prefix (header), payload, suffix (footer)
sandwich; the footer stores a back-reference to the header, so the whole
structure of a block is determined by its start address and its total extent
together with the allocated flag stored in the header.  We therefore embed
the arena as a list of blocks carrying extent (total size, header and footer
included) and the allocated flag; the start offset of a block is the sum of
the extents of the blocks before it (arenaBegin is offset 0).  Payload bytes
live in a separate byte memory indexed by arena offset; header and footer
writes do not touch it, and the only operation reading or writing payload
bytes is the byte copy loop of the resize fallback.

C pointers are arena offsets (`Option Int`, `none` for NULL).  Fallible
steps return `Except CErr`:
  * `nullDeref` models dereferencing a NULL block pointer (undefined
    behavior in the C source);
  * `wildPtr` models dereferencing an address that is not a block start;
  * `invalidBlockSize` models calling makeFreeBlock with a size below
    prefixSize + suffixSize.  The source documents (myAllocator.c lines
    14-17) that "a block must be at least of size prefixSize+suffixSize";
    a smaller makeFreeBlock makes the prefix/suffix writes overlap the
    metadata of neighboring blocks, destroying the chain, so the model
    treats it as the corruption it is.

Machine integers: sizes are C size_t and int.  All arithmetic is done on
Int; `cSize` is the conversion to size_t (mod 2^64) and `cInt` the
conversion to 32-bit signed int, inserted where the source converts.
-/

/-- How much memory initializeArena asks for: 1 MiB (myAllocator.c line 57). -/
def DEFAULT_BRKSIZE : Int := 0x100000

/-- Modelled from the spec: myAllocator.h, which defines BlockPrefix_t and
BlockSuffix_t, is not among the sources.  Per the spec the header and footer
sizes are architecture-fixed constants rounded up to a multiple of 8; the
spec scenarios (a request of 56500 leaving a block of usable size 56504 in a
1 MiB arena, regions 8-aligned) fix align8(sizeof(BlockPrefix_t)) = 16 (a
suffix pointer plus an int flag on a 64-bit machine). -/
def prefixSize : Int := 16

/-- Modelled from the spec: align8(sizeof(BlockSuffix_t)) = 8 (a single
prefix pointer on a 64-bit machine); see `prefixSize`. -/
def suffixSize : Int := 8

/-- The align8 macro `(((x)+7) & ~7)` (myAllocator.c line 52).  On two's
complement integers the bitmask rounds x+7 down to a multiple of 8, i.e.
rounds x up to the next multiple of 8; Int division by the positive 8
rounds down, so this is the same function on all inputs. -/
def align8 (x : Int) : Int := 8 * ((x + 7) / 8)

/-- C conversion of a value to 64-bit size_t. -/
def cSize (x : Int) : Int := x % (2 ^ 64)

/-- C conversion of a value to 32-bit signed int (two's complement). -/
def cInt (x : Int) : Int := (x + 2 ^ 31) % (2 ^ 32) - 2 ^ 31

/-- INT_MAX, the start value of findBestFit's running minimum. -/
def INT_MAX : Int := 2 ^ 31 - 1

/-- A block of the arena chain: its total extent in bytes (prefix + usable
payload + suffix) and the allocated flag stored in its prefix.  The block's
start offset is implicit: the sum of the extents of the blocks before it. -/
structure Block where
  extent : Int
  allocated : Bool
deriving Repr, DecidableEq

/-- The arena: the gapless block chain from arenaBegin (offset 0) to
arenaEnd (offset = sum of all extents), plus the payload byte memory. -/
structure ArenaState where
  blocks : List Block
  mem : Int → Int

/-- Errors of the model; each marks undefined behavior of the C source. -/
inductive CErr where
  | nullDeref
  | wildPtr
  | invalidBlockSize
deriving Repr, DecidableEq

/-- computeUsableSpace (myAllocator.c lines 81-84): the space between a
block's prefix and suffix. -/
def usableSpace (b : Block) : Int := b.extent - (prefixSize + suffixSize)

/-- Sum of the extents of a list of blocks. -/
def extSum (bs : List Block) : Int := (bs.map Block.extent).sum

/-- arenaEnd - arenaBegin: offset one past the last block. -/
def arenaSize (st : ArenaState) : Int := extSum st.blocks

/-- Resolve an arena offset to a block start: returns the blocks before,
the block starting exactly at `off`, and the blocks after. -/
def seek : List Block → Int → Option (List Block × Block × List Block)
  | [], _ => none
  | b :: rest, off =>
    if off = 0 then some ([], b, rest)
    else
      match seek rest (off - b.extent) with
      | some x => some (b :: x.1, x.2.1, x.2.2)
      | none => none

/-- Dereference a block pointer: error on an address that is not a block
start (wild pointer, undefined behavior in C). -/
def seekE (st : ArenaState) (off : Int) : Except CErr (List Block × Block × List Block) :=
  match seek st.blocks off with
  | some x => .ok x
  | none => .error .wildPtr

/-- Read the block record at a pointer. -/
def blockAtE (st : ArenaState) (off : Int) : Except CErr Block := do
  let x ← seekE st off
  .ok x.2.1

/-- makeFreeBlock (myAllocator.c lines 60-68) stamps a prefix at addr and a
suffix at addr+size-suffixSize and marks the block free.  The source
requires size ≥ prefixSize + suffixSize (lines 14-17): for smaller sizes
the prefix/suffix writes overlap the metadata of adjacent blocks and
corrupt the chain, which the model reports as an error. -/
def makeFreeBlock (size : Int) : Except CErr Block :=
  if prefixSize + suffixSize ≤ size then .ok ⟨size, false⟩ else .error .invalidBlockSize

/-- The split idiom used by the allocation and resize paths: makeFreeBlock
on the tail sliver starting k bytes into the block, then makeFreeBlock on
the first k bytes (the source always stamps the sliver first). -/
def splitBlockAt (st : ArenaState) (off k : Int) : Except CErr ArenaState := do
  let x ← seekE st off
  let sliver ← makeFreeBlock (x.2.1.extent - k)
  let head ← makeFreeBlock k
  .ok { st with blocks := x.1 ++ head :: sliver :: x.2.2 }

/-- Write the allocated flag of the block at a pointer. -/
def setAllocated (st : ArenaState) (off : Int) (v : Bool) : Except CErr ArenaState := do
  let x ← seekE st off
  .ok { st with blocks := x.1 ++ { x.2.1 with allocated := v } :: x.2.2 }

/-- getNextPrefix (myAllocator.c lines 94-100): the address one past the
block's suffix, or NULL if that address is not below arenaEnd. -/
def getNextBlock (st : ArenaState) (off : Int) : Except CErr (Option Int) := do
  let x ← seekE st off
  if off + x.2.1.extent < arenaSize st then .ok (some (off + x.2.1.extent))
  else .ok none

/-- getPrevPrefix (myAllocator.c lines 102-108): reads the back-reference
stored in the suffix just below the block's prefix, provided that suffix
address is above arenaBegin; NULL for the first block. -/
def getPrevBlock (st : ArenaState) (off : Int) : Except CErr (Option Int) :=
  if 0 < off - suffixSize then do
    let x ← seekE st off
    match x.1.getLast? with
    | some a => .ok (some (off - a.extent))
    | none => .ok none
  else .ok none

/-- computeUsableSpace applied to a possibly-NULL block pointer, as the
resize variants do (myAllocator.c lines 343, 397, 425): dereferencing NULL
is the error. -/
def computeUsableSpaceE (st : ArenaState) (p : Option Int) : Except CErr Int :=
  match p with
  | none => .error .nullDeref
  | some off => do
    let b ← blockAtE st off
    .ok (usableSpace b)

/-- coalescePrev (myAllocator.c lines 110-117): if the block and its
predecessor are both free, re-stamp the predecessor to span both and return
the predecessor, otherwise return the block unchanged. -/
def coalescePrev (st : ArenaState) (off : Int) : Except CErr (Int × ArenaState) := do
  let prev? ← getPrevBlock st off
  match prev? with
  | none => .ok (off, st)
  | some pv => do
    let x ← seekE st off
    let a ← blockAtE st pv
    if !x.2.1.allocated ∧ !a.allocated then do
      let merged ← makeFreeBlock (a.extent + x.2.1.extent)
      .ok (pv, { st with blocks := x.1.dropLast ++ merged :: x.2.2 })
    else .ok (off, st)

/-- coalesce (myAllocator.c lines 119-129): coalesce with the predecessor,
then let the successor (if any) coalesce with the result.  Note the source
returns the value of the second coalescePrev call. -/
def coalesce (st : ArenaState) (off : Int) : Except CErr (Int × ArenaState) := do
  let r ← coalescePrev st off
  let next? ← getNextBlock r.2 r.1
  match next? with
  | some nx => coalescePrev r.2 nx
  | none => .ok r

/-- growArena (myAllocator.c lines 133-148): growingDisabled is initialized
to 1 (line 131) and nothing in the sources clears it, so growArena returns
NULL immediately (lines 136-137) without touching the arena. -/
def growArena (st : ArenaState) (_s : Int) : Option Int × ArenaState := (none, st)

/-- Scan loop of findFirstFit: first free block with usable space ≥ s. -/
def findFirstFitAux (s : Int) : List Block → Int → Option Int
  | [], _ => none
  | b :: rest, off =>
    if !b.allocated ∧ s ≤ usableSpace b then some off
    else findFirstFitAux s rest (off + b.extent)

/-- findFirstFit (myAllocator.c lines 185-193): scan from arenaBegin, fall
back to growArena when no block fits. -/
def findFirstFit (st : ArenaState) (s : Int) : Option Int :=
  match findFirstFitAux s st.blocks 0 with
  | some off => some off
  | none => (growArena st s).1

/-- Scan loop of findBestFit (myAllocator.c lines 201-218).  The running
minimum minUsableSpace and the candidate best are ints; the usable space is
converted to int (`space`), compared for exact equality against s (int vs
size_t comparison happens in size_t), and a free block strictly between s
and the running minimum becomes the new best fit. -/
def findBestFitAux (s : Int) : List Block → Int → Int → Option Int → Option Int
  | [], _, _, best => best
  | b :: rest, off, minU, best =>
    if !b.allocated then
      let space := cInt (usableSpace b)
      if cSize space = s then some off
      else if space < minU ∧ s < cSize space then
        findBestFitAux s rest (off + b.extent) space (some off)
      else findBestFitAux s rest (off + b.extent) minU best
    else findBestFitAux s rest (off + b.extent) minU best

/-- findBestFit (myAllocator.c lines 196-223): the scan, then the recorded
best fit, then growArena. -/
def findBestFit (st : ArenaState) (s : Int) : Option Int :=
  match findBestFitAux s st.blocks 0 INT_MAX none with
  | some off => some off
  | none => (growArena st s).1

/-- initializeArena (myAllocator.c lines 74-79): only initialize once; an
uninitialized arena (arenaBegin == 0) is the empty chain, initialization
stamps the whole 1 MiB as a single free block. -/
def initArena (st : ArenaState) : ArenaState :=
  if st.blocks.isEmpty then { st with blocks := [⟨DEFAULT_BRKSIZE, false⟩] } else st

/-- The shared body of firstFitAllocRegion / bestFitAllocRegion after the
search (myAllocator.c lines 249-262 and 272-284): if a block was found,
split it when its usable space covers asize plus the block overhead plus 8,
mark it allocated and return its region; otherwise return NULL. -/
def allocFromFind (st : ArenaState) (asize : Int) (found : Option Int) :
    Except CErr (Option Int × ArenaState) :=
  match found with
  | none => .ok (none, st)
  | some off => do
    let b ← blockAtE st off
    let availSize := usableSpace b
    let st ← if asize + prefixSize + suffixSize + 8 ≤ availSize then
        splitBlockAt st off (prefixSize + suffixSize + asize)
      else pure st
    let st ← setAllocated st off true
    .ok (some (off + prefixSize), st)

/-- firstFitAllocRegion (myAllocator.c lines 243-263). -/
def firstFitAllocRegion (st : ArenaState) (s : Int) : Except CErr (Option Int × ArenaState) :=
  let asize := align8 s
  let st := initArena st
  allocFromFind st asize (findFirstFit st s)

/-- bestFitAllocRegion (myAllocator.c lines 266-285). -/
def bestFitAllocRegion (st : ArenaState) (s : Int) : Except CErr (Option Int × ArenaState) :=
  let asize := align8 s
  let st := initArena st
  allocFromFind st asize (findBestFit st s)

/-- freeRegion (myAllocator.c lines 287-293): no-op on NULL, otherwise mark
the region's block free and coalesce it with its neighbors. -/
def freeRegion (st : ArenaState) (r : Option Int) : Except CErr ArenaState :=
  match r with
  | none => .ok st
  | some rOff => do
    let pOff := rOff - prefixSize
    let st ← setAllocated st pOff false
    let r ← coalesce st pOff
    .ok r.2

/-- The byte copy loop `for (i = 0; i < oldSize; i++) n[i] = o[i]` of the
resize fallbacks, as a memory transformer. -/
def copyMem (m : Int → Int) (src dst cnt : Int) : Int → Int :=
  fun a => if dst ≤ a ∧ a < dst + cnt then m (src + (a - dst)) else m a

/-- The shared fallback tail of the three resize variants: allocate a fresh
region with the given strategy, copy oldSize bytes from the old region to
the new one, free the old region, return the new region.  When the
allocation fails and oldSize > 0 the copy loop writes through the NULL
result (undefined behavior). -/
def resizeFallback (alloc : ArenaState → Int → Except CErr (Option Int × ArenaState))
    (st : ArenaState) (r : Option Int) (oldSize newSize : Int) :
    Except CErr (Option Int × ArenaState) := do
  let x ← alloc st newSize
  match x.1, r with
  | none, _ =>
    if 0 < oldSize then .error .nullDeref
    else do
      let st ← freeRegion x.2 r
      .ok (none, st)
  | some nOff, none =>
    if 0 < oldSize then .error .nullDeref
    else do
      let st ← freeRegion x.2 none
      .ok (some nOff, st)
  | some nOff, some rOff => do
    let st := { x.2 with mem := copyMem x.2.mem rOff nOff oldSize }
    let st ← freeRegion st (some rOff)
    .ok (some nOff, st)

/-- The shared prelude of the three resize variants: the old region's usable
space as int, 0 for a NULL region. -/
def resizeOldSize (st : ArenaState) (r : Option Int) : Except CErr Int :=
  match r with
  | some rOff => do
    let b ← blockAtE st (rOff - prefixSize)
    pure (cInt (usableSpace b))
  | none => pure 0

/-- oldResizeRegion (myAllocator.c lines 303-323): fast path when the old
region is big enough, otherwise allocate-copy-free using firstFitAllocRegion. -/
def oldResizeRegion (st : ArenaState) (r : Option Int) (newSize : Int) :
    Except CErr (Option Int × ArenaState) := do
  let oldSize ← resizeOldSize st r
  if newSize ≤ cSize oldSize then .ok (r, st)
  else resizeFallback firstFitAllocRegion st r oldSize newSize

/-- The successor-merge arm shared by resizeRegion (myAllocator.c lines
348-368) and resizeRegionExtra (lines 401-421): carve aSize bytes from the
head of the free successor (splitting its tail off when the remainder
passes the availSize ≥ aSize + 8 test), temporarily mark the current block
free, coalesce it with the carved piece, mark the result allocated. -/
def mergeWithNext (st : ArenaState) (pOff nxOff usableSpaceCurrent usableSpaceNext newSize : Int) :
    Except CErr (Option Int × ArenaState) := do
  let aSize := align8 (cInt (cSize (newSize - usableSpaceCurrent)))
  let availSize := usableSpaceNext
  let st ← if cSize (aSize + 8) ≤ cSize availSize then splitBlockAt st nxOff aSize
    else pure st
  let st ← setAllocated st pOff false
  let r ← coalescePrev st nxOff
  let st ← setAllocated r.2 r.1 true
  .ok (some (r.1 + prefixSize), st)

/-- resizeRegion (myAllocator.c lines 331-378): fast path, successor merge
when the free successor supplies enough space, else allocate-copy-free with
bestFitAllocRegion.  Note that computeUsableSpace is applied to the
successor pointer (line 343) before the NULL test (line 345). -/
def resizeRegion (st : ArenaState) (r : Option Int) (newSize : Int) :
    Except CErr (Option Int × ArenaState) := do
  let oldSize ← resizeOldSize st r
  if newSize ≤ cSize oldSize then .ok (r, st)
  else
    match r with
    | none => .error .nullDeref
    | some rOff => do
      let pOff := rOff - prefixSize
      let next? ← getNextBlock st pOff
      let usableSpaceNext ← computeUsableSpaceE st next?
      let cb ← blockAtE st pOff
      let usableSpaceCurrent := usableSpace cb
      match next? with
      | some nxOff => do
        let nb ← blockAtE st nxOff
        if !nb.allocated then
          let sumSize := cInt (cSize (usableSpaceNext + usableSpaceCurrent))
          if newSize ≤ cSize sumSize then
            mergeWithNext st pOff nxOff usableSpaceCurrent usableSpaceNext newSize
          else resizeFallback bestFitAllocRegion st (some rOff) oldSize newSize
        else resizeFallback bestFitAllocRegion st (some rOff) oldSize newSize
      | none => resizeFallback bestFitAllocRegion st (some rOff) oldSize newSize

/-- The predecessor-merge arm of resizeRegionExtra (myAllocator.c lines
429-450): carve the needed bytes from the tail of the free predecessor
(keeping its head of extent prefixSize+suffixSize+aSize when the split test
passes), mark the current block free, coalesce it backward (its header
moves to the carved boundary), mark the result allocated. -/
def mergeWithPrev (st : ArenaState) (pOff pvOff usableSpaceCurrent usableSpacePast newSize : Int) :
    Except CErr (Option Int × ArenaState) := do
  let missingSize := cInt (align8 (cSize (newSize - usableSpaceCurrent)))
  let aSize := cSize (align8 (cSize (usableSpacePast - missingSize)))
  let availSize := usableSpacePast
  let st ← if cSize (aSize + 8) ≤ cSize availSize then
      splitBlockAt st pvOff (prefixSize + suffixSize + aSize)
    else pure st
  let st ← setAllocated st pOff false
  let r ← coalescePrev st pOff
  let st ← setAllocated r.2 r.1 true
  .ok (some (r.1 + prefixSize), st)

/-- The three-way-merge arm of resizeRegionExtra that trims the predecessor
(myAllocator.c lines 456-477), taken when the predecessor's usable space
exceeds the successor's. -/
def mergeBothTrimPrev (st : ArenaState)
    (pOff pvOff usableSpaceCurrent usableSpaceNext usableSpacePast newSize : Int) :
    Except CErr (Option Int × ArenaState) := do
  let missingSize := cInt (align8 (cSize
    (newSize - usableSpaceCurrent - usableSpaceNext - prefixSize - suffixSize)))
  let aSize := align8 (cInt (cSize (usableSpacePast - missingSize)))
  let availSize := usableSpacePast
  let st ← if cSize (aSize + 8) ≤ cSize availSize then
      splitBlockAt st pvOff (aSize + prefixSize + suffixSize)
    else pure st
  let st ← setAllocated st pOff false
  let r ← coalesce st pOff
  let st ← setAllocated r.2 r.1 true
  .ok (some (r.1 + prefixSize), st)

/-- The three-way-merge arm of resizeRegionExtra that trims the successor
(myAllocator.c lines 478-499), taken when the predecessor's usable space
does not exceed the successor's. -/
def mergeBothTrimNext (st : ArenaState)
    (pOff nxOff usableSpaceCurrent usableSpaceNext usableSpacePast newSize : Int) :
    Except CErr (Option Int × ArenaState) := do
  let missingSize := cInt (align8 (cSize (usableSpaceCurrent + usableSpacePast)))
  let aSize := align8 (cInt (cSize (newSize - missingSize)))
  let availSize := usableSpaceNext
  let st ← if cSize (aSize + 8) ≤ cSize availSize then
      splitBlockAt st nxOff (aSize - (prefixSize + suffixSize))
    else pure st
  let st ← setAllocated st pOff false
  let r ← coalesce st pOff
  let st ← setAllocated r.2 r.1 true
  .ok (some (r.1 + prefixSize), st)

/-- resizeRegionExtra after the successor arm declined (myAllocator.c lines
423-508): the predecessor arm, the three-way arm with its trim choice, and
the allocate-copy-free fallback.  computeUsableSpace is applied to the
predecessor pointer (line 425) before the NULL test (line 426). -/
def rrxAfterNext (st : ArenaState) (rOff oldSize newSize : Int)
    (next? : Option Int) (nextFree : Bool) (usableSpaceCurrent usableSpaceNext : Int) :
    Except CErr (Option Int × ArenaState) := do
  let pOff := rOff - prefixSize
  let past? ← getPrevBlock st pOff
  let usableSpacePast ← computeUsableSpaceE st past?
  let pastFree ← match past? with
    | some pvOff => do
      let pb ← blockAtE st pvOff
      pure (!pb.allocated)
    | none => pure false
  match past?, pastFree with
  | some pvOff, true =>
    if newSize ≤ cSize (cInt (cSize (usableSpacePast + usableSpaceCurrent))) then
      mergeWithPrev st pOff pvOff usableSpaceCurrent usableSpacePast newSize
    else
      match next?, nextFree with
      | some nxOff, true =>
        if newSize ≤ cSize (cInt (cSize (usableSpacePast + usableSpaceNext + usableSpaceCurrent))) then
          if cSize usableSpaceNext < cSize usableSpacePast then
            mergeBothTrimPrev st pOff pvOff usableSpaceCurrent usableSpaceNext usableSpacePast newSize
          else
            mergeBothTrimNext st pOff nxOff usableSpaceCurrent usableSpaceNext usableSpacePast newSize
        else resizeFallback bestFitAllocRegion st (some rOff) oldSize newSize
      | _, _ => resizeFallback bestFitAllocRegion st (some rOff) oldSize newSize
  | _, _ => resizeFallback bestFitAllocRegion st (some rOff) oldSize newSize

/-- resizeRegionExtra (myAllocator.c lines 385-510): fast path, successor
merge, predecessor merge, three-way merge, allocate-copy-free fallback. -/
def resizeRegionExtra (st : ArenaState) (r : Option Int) (newSize : Int) :
    Except CErr (Option Int × ArenaState) := do
  let oldSize ← resizeOldSize st r
  if newSize ≤ cSize oldSize then .ok (r, st)
  else
    match r with
    | none => .error .nullDeref
    | some rOff => do
      let pOff := rOff - prefixSize
      let next? ← getNextBlock st pOff
      let usableSpaceNext ← computeUsableSpaceE st next?
      let cb ← blockAtE st pOff
      let usableSpaceCurrent := usableSpace cb
      let nextFree ← match next? with
        | some nxOff => do
          let nb ← blockAtE st nxOff
          pure (!nb.allocated)
        | none => pure false
      match next?, nextFree with
      | some nxOff, true =>
        if newSize ≤ cSize (cInt (cSize (usableSpaceNext + usableSpaceCurrent))) then
          mergeWithNext st pOff nxOff usableSpaceCurrent usableSpaceNext newSize
        else rrxAfterNext st rOff oldSize newSize next? nextFree usableSpaceCurrent usableSpaceNext
      | _, _ => rrxAfterNext st rOff oldSize newSize next? nextFree usableSpaceCurrent usableSpaceNext

deriving instance DecidableEq for Except

/-- Projection of a run result forgetting the payload memory, used to state
concrete runs (block chains are decidable data, the memory is a function). -/
def runBlocks (e : Except CErr (Option Int × ArenaState)) : Except CErr (Option Int × List Block) :=
  e.map fun x => (x.1, x.2.blocks)

/-- An all-zero payload memory for concrete states. -/
def memZero : Int → Int := fun _ => 0

/-- A structurally sound block: big enough to hold its own prefix and
suffix, and of 8-aligned extent, as every block the source code creates. -/
def GoodBlock (b : Block) : Prop := prefixSize + suffixSize ≤ b.extent ∧ (8 : Int) ∣ b.extent

instance : DecidablePred GoodBlock := fun b => by unfold GoodBlock; infer_instance

/-- Arena invariant: initialized (nonempty chain), every block sound, and
total extent at most the initial 1 MiB (growth is disabled, so the arena
never exceeds the initializeArena allotment). -/
def ValidArena (bs : List Block) : Prop :=
  bs ≠ [] ∧ (∀ b ∈ bs, GoodBlock b) ∧ extSum bs ≤ DEFAULT_BRKSIZE

instance : DecidablePred ValidArena := fun bs => by unfold ValidArena; infer_instance

theorem cSize_id (x : Int) (h0 : 0 ≤ x) (h1 : x < 2 ^ 64) : cSize x = x := by
  unfold cSize; omega

theorem cInt_id (x : Int) (h0 : -2 ^ 31 ≤ x) (h1 : x < 2 ^ 31) : cInt x = x := by
  unfold cInt; omega

theorem le_align8 (x : Int) : x ≤ align8 x := by unfold align8; omega

theorem align8_lt (x : Int) : align8 x < x + 8 := by unfold align8; omega

theorem align8_dvd (x : Int) : (8 : Int) ∣ align8 x := ⟨(x + 7) / 8, rfl⟩

theorem align8_of_dvd (x : Int) (h : (8 : Int) ∣ x) : align8 x = x := by
  unfold align8; omega

theorem align8_nonneg (x : Int) (h : 0 ≤ x) : 0 ≤ align8 x :=
  le_trans h (le_align8 x)

theorem extSum_nil : extSum [] = 0 := rfl

theorem extSum_cons (b : Block) (bs : List Block) :
    extSum (b :: bs) = b.extent + extSum bs := by simp [extSum]

theorem extSum_append (xs ys : List Block) :
    extSum (xs ++ ys) = extSum xs + extSum ys := by simp [extSum]

theorem extSum_nonneg (bs : List Block) (h : ∀ b ∈ bs, 0 < b.extent) : 0 ≤ extSum bs := by
  induction bs with
  | nil => simp [extSum_nil]
  | cons a rest ih =>
    have ha := h a (by simp)
    have := ih (fun b hb => h b (by simp [hb]))
    rw [extSum_cons]; omega

theorem good_pos (b : Block) (h : GoodBlock b) : 0 < b.extent := by
  have := h.1; unfold prefixSize suffixSize at this; omega

theorem extSum_good_nonneg (bs : List Block) (h : ∀ b ∈ bs, GoodBlock b) : 0 ≤ extSum bs :=
  extSum_nonneg bs (fun b hb => good_pos b (h b hb))

theorem extSum_good_dvd (bs : List Block) (h : ∀ b ∈ bs, GoodBlock b) :
    (8 : Int) ∣ extSum bs := by
  induction bs with
  | nil => simp [extSum_nil]
  | cons a rest ih =>
    have ha := (h a (by simp)).2
    have := ih (fun b hb => h b (by simp [hb]))
    rw [extSum_cons]; exact dvd_add ha this

theorem extent_le_extSum (bs : List Block) (b : Block) (hmem : b ∈ bs)
    (h : ∀ c ∈ bs, GoodBlock c) : b.extent ≤ extSum bs := by
  induction bs with
  | nil => simp at hmem
  | cons a rest ih =>
    have hrest : ∀ c ∈ rest, GoodBlock c := fun c hc => h c (by simp [hc])
    rw [extSum_cons]
    rcases List.mem_cons.mp hmem with hba | hbr
    · subst hba
      have := extSum_good_nonneg rest hrest
      omega
    · have := ih hbr hrest
      have := good_pos a (h a (by simp))
      omega

theorem extSum_ge_of_ne_nil (bs : List Block) (h : ∀ b ∈ bs, GoodBlock b) (hne : bs ≠ []) :
    prefixSize + suffixSize ≤ extSum bs := by
  cases bs with
  | nil => exact absurd rfl hne
  | cons a rest =>
    have := (h a (by simp)).1
    have := extSum_good_nonneg rest (fun b hb => h b (by simp [hb]))
    rw [extSum_cons]; omega

theorem seek_pre (pre : List Block) (b : Block) (post : List Block)
    (h : ∀ c ∈ pre, 0 < c.extent) :
    seek (pre ++ b :: post) (extSum pre) = some (pre, b, post) := by
  induction pre with
  | nil => simp [seek, extSum_nil]
  | cons a rest ih =>
    have ha := h a (by simp)
    have hrest : ∀ c ∈ rest, 0 < c.extent := fun c hc => h c (by simp [hc])
    have hnz : extSum (a :: rest) ≠ 0 := by
      have := extSum_nonneg rest hrest
      rw [extSum_cons]; omega
    have hsub : extSum (a :: rest) - a.extent = extSum rest := by rw [extSum_cons]; ring
    rw [List.cons_append]
    unfold seek
    rw [if_neg hnz, hsub, ih hrest]

theorem seek_some : ∀ (bs : List Block) (off : Int) (pre : List Block) (b : Block)
    (post : List Block), seek bs off = some (pre, b, post) →
    bs = pre ++ b :: post ∧ off = extSum pre
  | [], _, _, _, _, h => by simp [seek] at h
  | c :: rest, off, pre, b, post, h => by
    unfold seek at h
    by_cases h0 : off = 0
    · rw [if_pos h0] at h
      simp only [Option.some.injEq, Prod.mk.injEq] at h
      obtain ⟨h1, h2, h3⟩ := h
      subst h1; subst h2; subst h3
      simp [h0, extSum_nil]
    · rw [if_neg h0] at h
      cases hrec : seek rest (off - c.extent) with
      | none => rw [hrec] at h; simp at h
      | some x =>
        rw [hrec] at h
        simp only [Option.some.injEq, Prod.mk.injEq] at h
        obtain ⟨h1, h2, h3⟩ := h
        subst h1; subst h2; subst h3
        obtain ⟨hbs, hoff⟩ := seek_some rest (off - c.extent) x.1 x.2.1 x.2.2 hrec
        refine ⟨by simp [hbs], ?_⟩
        rw [extSum_cons]; omega

theorem bindOk {α β : Type} (a : α) (f : α → Except CErr β) :
    (Except.ok a : Except CErr α) >>= f = f a := rfl

theorem bindErr {α β : Type} (e : CErr) (f : α → Except CErr β) :
    (Except.error e : Except CErr α) >>= f = Except.error e := rfl

/-- Claim C4 (refuted by the code; the source contradicts its own block-size
contract).  From a freshly initialized arena, the public calls
`p = firstFitAllocRegion(256); resizeRegion(p, 257)` reach the successor
merge of resizeRegion with aSize = align8(257-256) = 8: the code then calls
makeFreeBlock(nextBlock, 8) although a block needs at least
prefixSize + suffixSize = 24 bytes (myAllocator.c lines 14-17), so the
prefix/suffix stamps of the two split pieces overlap and clobber each
other, breaking the suffix back-references that arenaCheck asserts.  The
model: the first state is reachable and passes the invariant, and the
resize run aborts with invalidBlockSize instead of producing a state. -/
theorem resize_corruption_bug :
    runBlocks (firstFitAllocRegion ⟨[], memZero⟩ 256) =
      .ok (some 16, [⟨280, true⟩, ⟨1048296, false⟩]) ∧
    ValidArena [⟨280, true⟩, ⟨1048296, false⟩] ∧
    runBlocks (resizeRegion ⟨[⟨280, true⟩, ⟨1048296, false⟩], memZero⟩ (some 16) 257) =
      .error .invalidBlockSize := by
  refine ⟨by decide, by decide, by decide⟩

/-- Claim C6 (confirmed).  A block of usable size 256 with a free
predecessor of usable size 56504 and a free successor of usable size 25400,
resized with resizeRegionExtra to 58000, succeeds through the three-way
merge: the predecessor (the larger neighbor) is trimmed to a free block of
extent 24208 and the result is an allocated block of usable space exactly
58000 ≥ 58000.  The allocate-copy-free fallback could not have produced
this: run on the same state it fails (no free block of usable space 58000
exists and growth is disabled, so bestFitAllocRegion returns NULL and the
copy loop dereferences it). -/
theorem resizeExtra_fullMerge_scenario :
    runBlocks (resizeRegionExtra
        ⟨[⟨56528, false⟩, ⟨280, true⟩, ⟨25424, false⟩, ⟨966344, true⟩], memZero⟩
        (some 56544) 58000) =
      .ok (some 24224, [⟨24208, false⟩, ⟨58024, true⟩, ⟨966344, true⟩]) ∧
    usableSpace ⟨56528, false⟩ = 56504 ∧ usableSpace ⟨280, true⟩ = 256 ∧
    usableSpace ⟨25424, false⟩ = 25400 ∧
    (58000 : Int) ≤ usableSpace ⟨58024, true⟩ ∧
    runBlocks (resizeFallback bestFitAllocRegion
        ⟨[⟨56528, false⟩, ⟨280, true⟩, ⟨25424, false⟩, ⟨966344, true⟩], memZero⟩
        (some 56544) 256 58000) = .error .nullDeref := by
  refine ⟨by decide, by decide, by decide, by decide, by decide, by decide⟩

theorem findBestFitAux_stall (s : Int) : ∀ (bs : List Block) (off minU : Int) (best : Option Int),
    (∀ c ∈ bs, 0 ≤ usableSpace c ∧ usableSpace c < INT_MAX) → 0 ≤ s →
    (∀ c ∈ bs, c.allocated = false → usableSpace c ≠ s ∧ (s < usableSpace c → minU ≤ usableSpace c)) →
    findBestFitAux s bs off minU best = best
  | [], _, _, _, _, _, _ => rfl
  | c :: rest, off, minU, best, hB, hs0, h => by
    have hBc := hB c (by simp)
    have hBrest : ∀ d ∈ rest, 0 ≤ usableSpace d ∧ usableSpace d < INT_MAX :=
      fun d hd => hB d (by simp [hd])
    have hrest : ∀ d ∈ rest, d.allocated = false →
        usableSpace d ≠ s ∧ (s < usableSpace d → minU ≤ usableSpace d) :=
      fun d hd => h d (by simp [hd])
    have hIM : INT_MAX = 2 ^ 31 - 1 := rfl
    unfold findBestFitAux
    by_cases hal : c.allocated
    · simp only [hal, Bool.not_true, Bool.false_eq_true, if_false]
      exact findBestFitAux_stall s rest (off + c.extent) minU best hBrest hs0 hrest
    · have hc := h c (by simp) (by simp [hal])
      have hci : cInt (usableSpace c) = usableSpace c := cInt_id _ (by omega) (by omega)
      have hcs : cSize (usableSpace c) = usableSpace c := cSize_id _ (by omega) (by omega)
      simp only [hal, Bool.not_false, if_true, hci, hcs]
      rw [if_neg hc.1]
      rw [if_neg (by intro hcontra; exact absurd (hc.2 hcontra.2) (by omega))]
      exact findBestFitAux_stall s rest (off + c.extent) minU best hBrest hs0 hrest

theorem findBestFitAux_min (s : Int) : ∀ (pre : List Block) (b : Block) (post : List Block)
    (off minU : Int) (best : Option Int),
    (∀ c ∈ pre ++ b :: post, 0 ≤ usableSpace c ∧ usableSpace c < INT_MAX) → 0 ≤ s →
    b.allocated = false → s ≤ usableSpace b →
    (∀ c ∈ pre, c.allocated = false → s ≤ usableSpace c → usableSpace b < usableSpace c) →
    (∀ c ∈ post, c.allocated = false → s ≤ usableSpace c → usableSpace b ≤ usableSpace c) →
    usableSpace b < minU →
    findBestFitAux s (pre ++ b :: post) off minU best = some (off + extSum pre)
  | [], b, post, off, minU, best, hB, hs0, hbf, hbs, _, hpost, hmin => by
    have hBb := hB b (by simp)
    have hIM : INT_MAX = 2 ^ 31 - 1 := rfl
    have hbi : cInt (usableSpace b) = usableSpace b := cInt_id _ (by omega) (by omega)
    have hbcs : cSize (usableSpace b) = usableSpace b := cSize_id _ (by omega) (by omega)
    rw [List.nil_append]
    unfold findBestFitAux
    simp only [hbf, Bool.not_false, if_true, hbi, hbcs]
    by_cases hex : usableSpace b = s
    · rw [if_pos hex]; simp [extSum_nil]
    · have hlt : s < usableSpace b := by omega
      rw [if_neg hex, if_pos ⟨hmin, hlt⟩]
      have hBpost : ∀ d ∈ post, 0 ≤ usableSpace d ∧ usableSpace d < INT_MAX :=
        fun d hd => hB d (by simp [hd])
      rw [findBestFitAux_stall s post (off + b.extent) (usableSpace b) (some off) hBpost hs0 ?_]
      · simp [extSum_nil]
      · intro d hd hdf
        constructor
        · intro hds
          have := hpost d hd hdf (by omega)
          omega
        · intro hsd
          exact hpost d hd hdf (by omega)
  | a :: pre, b, post, off, minU, best, hB, hs0, hbf, hbs, hpre, hpost, hmin => by
    have hBa := hB a (by simp)
    have hBb := hB b (by simp)
    have hIM : INT_MAX = 2 ^ 31 - 1 := rfl
    have hBrest : ∀ c ∈ pre ++ b :: post, 0 ≤ usableSpace c ∧ usableSpace c < INT_MAX :=
      fun c hc => hB c (by simp [List.mem_append] at hc ⊢; tauto)
    have hprerest : ∀ c ∈ pre, c.allocated = false → s ≤ usableSpace c →
        usableSpace b < usableSpace c := fun c hc => hpre c (by simp [hc])
    have hres : extSum (a :: pre) = a.extent + extSum pre := extSum_cons a pre
    rw [List.cons_append]
    unfold findBestFitAux
    by_cases hal : a.allocated
    · simp only [hal, Bool.not_true, Bool.false_eq_true, if_false]
      rw [findBestFitAux_min s pre b post (off + a.extent) minU best hBrest hs0 hbf hbs
        hprerest hpost hmin]
      rw [hres]; ring_nf
    · have hai : cInt (usableSpace a) = usableSpace a := cInt_id _ (by omega) (by omega)
      have hacs : cSize (usableSpace a) = usableSpace a := cSize_id _ (by omega) (by omega)
      simp only [hal, Bool.not_false, if_true, hai, hacs]
      have hanex : usableSpace a ≠ s := by
        intro hex
        have := hpre a (by simp) (by simp [hal]) (by omega)
        omega
      rw [if_neg hanex]
      by_cases hcand : s < usableSpace a
      · have hblta := hpre a (by simp) (by simp [hal]) (by omega)
        by_cases hupd : usableSpace a < minU
        · rw [if_pos ⟨hupd, hcand⟩]
          rw [findBestFitAux_min s pre b post (off + a.extent) (usableSpace a) (some off)
            hBrest hs0 hbf hbs hprerest hpost hblta]
          rw [hres]; ring_nf
        · rw [if_neg (by intro hcontra; exact hupd hcontra.1)]
          rw [findBestFitAux_min s pre b post (off + a.extent) minU best hBrest hs0 hbf hbs
            hprerest hpost hmin]
          rw [hres]; ring_nf
      · rw [if_neg (by intro hcontra; exact hcand hcontra.2)]
        rw [findBestFitAux_min s pre b post (off + a.extent) minU best hBrest hs0 hbf hbs
          hprerest hpost hmin]
        rw [hres]; ring_nf

theorem findBestFitAux_found (s : Int) : ∀ (bs : List Block) (off minU : Int)
    (best : Option Int) (f : Int),
    (∀ c ∈ bs, 0 ≤ usableSpace c ∧ usableSpace c < INT_MAX) → 0 ≤ s →
    findBestFitAux s bs off minU best = some f →
    (∃ pre b post, bs = pre ++ b :: post ∧ f = off + extSum pre ∧
      b.allocated = false ∧ s ≤ usableSpace b) ∨ best = some f
  | [], _, _, _, _, _, _, h => .inr h
  | c :: rest, off, minU, best, f, hB, hs0, h => by
    have hBc := hB c (by simp)
    have hIM : INT_MAX = 2 ^ 31 - 1 := rfl
    have hBrest : ∀ d ∈ rest, 0 ≤ usableSpace d ∧ usableSpace d < INT_MAX :=
      fun d hd => hB d (by simp [hd])
    unfold findBestFitAux at h
    by_cases hal : c.allocated
    · simp only [hal, Bool.not_true, Bool.false_eq_true, if_false] at h
      rcases findBestFitAux_found s rest (off + c.extent) minU best f hBrest hs0 h with hfound | hbest
      · obtain ⟨pre, b, post, hdec, hoff, hbf, hbs⟩ := hfound
        exact .inl ⟨c :: pre, b, post, by simp [hdec], by rw [extSum_cons]; omega, hbf, hbs⟩
      · exact .inr hbest
    · have hci : cInt (usableSpace c) = usableSpace c := cInt_id _ (by omega) (by omega)
      have hcs : cSize (usableSpace c) = usableSpace c := cSize_id _ (by omega) (by omega)
      simp only [hal, Bool.not_false, if_true, hci, hcs] at h
      by_cases hex : usableSpace c = s
      · rw [if_pos hex] at h
        refine .inl ⟨[], c, rest, by simp, ?_, by simp [hal], by omega⟩
        simp only [Option.some.injEq] at h
        simp [extSum_nil, h]
      · rw [if_neg hex] at h
        by_cases hupd : usableSpace c < minU ∧ s < usableSpace c
        · rw [if_pos hupd] at h
          rcases findBestFitAux_found s rest (off + c.extent) (usableSpace c) (some off) f
              hBrest hs0 h with hfound | hbest
          · obtain ⟨pre, b, post, hdec, hoff, hbf, hbs⟩ := hfound
            exact .inl ⟨c :: pre, b, post, by simp [hdec], by rw [extSum_cons]; omega, hbf, hbs⟩
          · simp only [Option.some.injEq] at hbest
            refine .inl ⟨[], c, rest, by simp, by simp [extSum_nil, hbest], by simp [hal], by omega⟩
        · rw [if_neg hupd] at h
          rcases findBestFitAux_found s rest (off + c.extent) minU best f hBrest hs0 h
              with hfound | hbest
          · obtain ⟨pre, b, post, hdec, hoff, hbf, hbs⟩ := hfound
            exact .inl ⟨c :: pre, b, post, by simp [hdec], by rw [extSum_cons]; omega, hbf, hbs⟩
          · exact .inr hbest

theorem findFirstFitAux_pre (s : Int) : ∀ (pre : List Block) (b : Block) (post : List Block)
    (off : Int),
    (∀ c ∈ pre, ¬ (c.allocated = false ∧ s ≤ usableSpace c)) →
    b.allocated = false → s ≤ usableSpace b →
    findFirstFitAux s (pre ++ b :: post) off = some (off + extSum pre)
  | [], b, post, off, _, hbf, hbs => by
    rw [List.nil_append]
    unfold findFirstFitAux
    rw [if_pos (by simp [hbf, hbs])]
    simp [extSum_nil]
  | a :: pre, b, post, off, hpre, hbf, hbs => by
    have ha := hpre a (by simp)
    have hprerest : ∀ c ∈ pre, ¬ (c.allocated = false ∧ s ≤ usableSpace c) :=
      fun c hc => hpre c (by simp [hc])
    rw [List.cons_append]
    unfold findFirstFitAux
    rw [if_neg (by simpa using ha)]
    rw [findFirstFitAux_pre s pre b post (off + a.extent) hprerest hbf hbs]
    rw [extSum_cons]; ring_nf

theorem findFirstFitAux_found (s : Int) : ∀ (bs : List Block) (off f : Int),
    findFirstFitAux s bs off = some f →
    ∃ pre b post, bs = pre ++ b :: post ∧ f = off + extSum pre ∧
      b.allocated = false ∧ s ≤ usableSpace b ∧
      (∀ c ∈ pre, ¬ (c.allocated = false ∧ s ≤ usableSpace c))
  | [], _, _, h => by simp [findFirstFitAux] at h
  | c :: rest, off, f, h => by
    unfold findFirstFitAux at h
    by_cases hc : !c.allocated ∧ s ≤ usableSpace c
    · rw [if_pos hc] at h
      simp only [Option.some.injEq] at h
      exact ⟨[], c, rest, by simp, by simp [extSum_nil, h], by simpa using hc.1, hc.2,
        by simp⟩
    · rw [if_neg hc] at h
      obtain ⟨pre, b, post, hdec, hoff, hbf, hbs, hpre⟩ :=
        findFirstFitAux_found s rest (off + c.extent) f h
      refine ⟨c :: pre, b, post, by simp [hdec], by rw [extSum_cons]; omega, hbf, hbs, ?_⟩
      intro d hd
      rcases List.mem_cons.mp hd with hdc | hdp
      · subst hdc
        intro hcontra
        exact hc ⟨by simp [hcontra.1], hcontra.2⟩
      · exact hpre d hdp

theorem valid_block_bounds (bs : List Block) (hv : ValidArena bs) :
    ∀ c ∈ bs, 0 ≤ usableSpace c ∧ usableSpace c < INT_MAX := by
  intro c hc
  have hg := hv.2.1 c hc
  have h1 := hg.1
  have h2 := extent_le_extSum bs c hc hv.2.1
  have h3 := hv.2.2
  unfold usableSpace prefixSize suffixSize at h1 ⊢
  unfold DEFAULT_BRKSIZE at h3
  unfold INT_MAX
  omega

/-- Claim C2 (confirmed).  findBestFit returns the free block of smallest
usable space that still covers the request, preferring the first such block
in scan order, and an exact usable-space match is returned as soon as it is
seen; when no free block fits (and growth is disabled) it returns NULL.
Concretely, on free blocks of usable sizes 56504, 254, 25400, 254 a request
of 16000 selects the 25400-usable block (offset 56806), not the
56504-usable one. -/
theorem findBestFit_spec (st : ArenaState) (s : Int)
    (hv : ValidArena st.blocks) (hs0 : 0 ≤ s) :
    (∀ pre b post, st.blocks = pre ++ b :: post →
      b.allocated = false → s ≤ usableSpace b →
      (∀ c ∈ pre, c.allocated = false → s ≤ usableSpace c → usableSpace b < usableSpace c) →
      (∀ c ∈ post, c.allocated = false → s ≤ usableSpace c → usableSpace b ≤ usableSpace c) →
      findBestFit st s = some (extSum pre)) ∧
    ((∀ b ∈ st.blocks, b.allocated = false → usableSpace b < s) → findBestFit st s = none) ∧
    findBestFit ⟨[⟨56528, false⟩, ⟨278, false⟩, ⟨25424, false⟩, ⟨278, false⟩], memZero⟩ 16000 =
      some 56806 ∧
    usableSpace ⟨25424, false⟩ = 25400 ∧ usableSpace ⟨56528, false⟩ = 56504 := by
  have hB := valid_block_bounds st.blocks hv
  refine ⟨?_, ?_, by decide, by decide, by decide⟩
  · intro pre b post hdec hbf hbs hpre hpost
    have hBb : usableSpace b < INT_MAX := by
      refine (hB b ?_).2
      rw [hdec]; simp
    have hmin : usableSpace b < INT_MAX := hBb
    unfold findBestFit
    rw [hdec]
    rw [findBestFitAux_min s pre b post 0 INT_MAX none (by rw [hdec] at hB; exact hB) hs0
      hbf hbs hpre hpost hmin]
    simp
  · intro hnone
    unfold findBestFit
    rw [findBestFitAux_stall s st.blocks 0 INT_MAX none hB hs0 ?_]
    · rfl
    · intro c hc hcf
      have := hnone c hc hcf
      constructor
      · omega
      · intro h; omega

/-- Witness for findBestFit_spec: on a valid arena holding free blocks of
usable sizes 56504 and 25400 separated by allocated blocks, a request of
16000 returns the offset of the 25400-usable block. -/
theorem findBestFit_spec_witness :
    ValidArena [⟨56528, false⟩, ⟨280, true⟩, ⟨25424, false⟩, ⟨966344, true⟩] ∧
    findBestFit ⟨[⟨56528, false⟩, ⟨280, true⟩, ⟨25424, false⟩, ⟨966344, true⟩], memZero⟩ 16000 =
      some 56808 := by
  refine ⟨by decide, ?_⟩
  have h := (findBestFit_spec ⟨[⟨56528, false⟩, ⟨280, true⟩, ⟨25424, false⟩, ⟨966344, true⟩],
    memZero⟩ 16000 (by decide) (by decide)).1
    [⟨56528, false⟩, ⟨280, true⟩] ⟨25424, false⟩ [⟨966344, true⟩]
    (by decide) (by decide) (by decide) (by decide) (by decide)
  simpa using h

theorem resizeOldSize_at (st : ArenaState) (rOff : Int) (pre : List Block) (b : Block)
    (post : List Block) (hdec : st.blocks = pre ++ b :: post)
    (hpos : ∀ c ∈ pre, 0 < c.extent) (hoff : rOff = extSum pre + prefixSize) :
    resizeOldSize st (some rOff) = .ok (cInt (usableSpace b)) := by
  have h1 : rOff - prefixSize = extSum pre := by omega
  unfold resizeOldSize blockAtE seekE
  simp only [h1, hdec, seek_pre pre b post hpos]
  rfl

/-- Claim C5 (confirmed).  In all three resize variants, when the region's
current usable space already covers newSize the call returns the same
region pointer and the arena state -- block chain and payload memory, hence
the region's bytes -- completely unchanged. -/
theorem resize_noop_spec (st : ArenaState) (rOff newSize : Int) (pre : List Block) (b : Block)
    (post : List Block) (hv : ValidArena st.blocks)
    (hdec : st.blocks = pre ++ b :: post) (hoff : rOff = extSum pre + prefixSize)
    (hcov : newSize ≤ usableSpace b) :
    oldResizeRegion st (some rOff) newSize = .ok (some rOff, st) ∧
    resizeRegion st (some rOff) newSize = .ok (some rOff, st) ∧
    resizeRegionExtra st (some rOff) newSize = .ok (some rOff, st) := by
  have hpos : ∀ c ∈ pre, 0 < c.extent :=
    fun c hc => good_pos c (hv.2.1 c (by rw [hdec]; simp [hc]))
  have hO := resizeOldSize_at st rOff pre b post hdec hpos hoff
  have hBb := valid_block_bounds st.blocks hv b (by rw [hdec]; simp)
  have hIM : INT_MAX = 2 ^ 31 - 1 := rfl
  have hci : cInt (usableSpace b) = usableSpace b := cInt_id _ (by omega) (by omega)
  have hcs : cSize (usableSpace b) = usableSpace b := cSize_id _ (by omega) (by omega)
  have hcond : newSize ≤ cSize (cInt (usableSpace b)) := by rw [hci, hcs]; exact hcov
  refine ⟨?_, ?_, ?_⟩
  · unfold oldResizeRegion
    rw [hO, bindOk, if_pos hcond]
  · unfold resizeRegion
    rw [hO, bindOk, if_pos hcond]
  · unfold resizeRegionExtra
    rw [hO, bindOk, if_pos hcond]

/-- Witness for resize_noop_spec at a concrete two-block arena. -/
theorem resize_noop_spec_witness :
    oldResizeRegion ⟨[⟨40, true⟩, ⟨1048536, false⟩], memZero⟩ (some 16) 16 =
      .ok (some 16, ⟨[⟨40, true⟩, ⟨1048536, false⟩], memZero⟩) ∧
    resizeRegion ⟨[⟨40, true⟩, ⟨1048536, false⟩], memZero⟩ (some 16) 16 =
      .ok (some 16, ⟨[⟨40, true⟩, ⟨1048536, false⟩], memZero⟩) ∧
    resizeRegionExtra ⟨[⟨40, true⟩, ⟨1048536, false⟩], memZero⟩ (some 16) 16 =
      .ok (some 16, ⟨[⟨40, true⟩, ⟨1048536, false⟩], memZero⟩) :=
  resize_noop_spec ⟨[⟨40, true⟩, ⟨1048536, false⟩], memZero⟩ 16 16 [] ⟨40, true⟩
    [⟨1048536, false⟩] (by decide) rfl (by decide) (by decide)

theorem pure_eq_ok {α : Type} (a : α) : (pure a : Except CErr α) = .ok a := rfl

theorem getNextBlock_last (st : ArenaState) (pre : List Block) (b : Block)
    (hdec : st.blocks = pre ++ [b]) (hpos : ∀ c ∈ pre, 0 < c.extent) :
    getNextBlock st (extSum pre) = .ok none := by
  have hend : ¬ (extSum pre + b.extent < arenaSize st) := by
    unfold arenaSize
    rw [hdec, extSum_append, extSum_cons, extSum_nil]
    omega
  unfold getNextBlock seekE
  simp only [hdec, seek_pre pre b [] hpos, bindOk]
  rw [if_neg hend]

theorem getNextBlock_mid (st : ArenaState) (pre : List Block) (b c : Block)
    (post : List Block) (hdec : st.blocks = pre ++ b :: c :: post)
    (hpos : ∀ d ∈ pre, 0 < d.extent)
    (hcpos : 0 < c.extent) (hpostn : 0 ≤ extSum post) :
    getNextBlock st (extSum pre) = .ok (some (extSum pre + b.extent)) := by
  have hseek : seek st.blocks (extSum pre) = some (pre, b, c :: post) := by
    rw [hdec]; exact seek_pre pre b (c :: post) hpos
  have hin : extSum pre + b.extent < arenaSize st := by
    unfold arenaSize
    rw [hdec, extSum_append, extSum_cons, extSum_cons]
    omega
  unfold getNextBlock seekE
  simp only [hseek, bindOk]
  rw [if_pos (by unfold arenaSize at hin ⊢; exact hin)]

/-- Claim C10 (confirmed).  resizeRegion applies computeUsableSpace to the
successor pointer before testing it for NULL, and resizeRegionExtra does
the same for the successor and then for the predecessor; so resizing the
last block of the arena (respectively the first block, when the successor
arm declines) below-target dereferences a NULL block pointer -- the error
branch of that computation is reachable. -/
theorem resize_nullNeighbor_deref (st : ArenaState) (newSize : Int) :
    (∀ rOff pre b, ValidArena st.blocks → st.blocks = pre ++ [b] →
      rOff = extSum pre + prefixSize → usableSpace b < newSize →
      resizeRegion st (some rOff) newSize = .error .nullDeref) ∧
    (∀ rOff pre b, ValidArena st.blocks → st.blocks = pre ++ [b] →
      rOff = extSum pre + prefixSize → usableSpace b < newSize →
      resizeRegionExtra st (some rOff) newSize = .error .nullDeref) ∧
    (∀ b c post, ValidArena st.blocks → st.blocks = b :: c :: post → c.allocated = true →
      usableSpace b < newSize →
      resizeRegionExtra st (some prefixSize) newSize = .error .nullDeref) := by
  have hIM : INT_MAX = 2 ^ 31 - 1 := rfl
  refine ⟨?_, ?_, ?_⟩
  · intro rOff pre b hv hdec hoff hlt
    have hpos : ∀ c ∈ pre, 0 < c.extent :=
      fun c hc => good_pos c (hv.2.1 c (by rw [hdec]; simp [hc]))
    have hO := resizeOldSize_at st rOff pre b [] hdec hpos hoff
    have hBb := valid_block_bounds st.blocks hv b (by rw [hdec]; simp)
    have hci : cInt (usableSpace b) = usableSpace b := cInt_id _ (by omega) (by omega)
    have hcs : cSize (usableSpace b) = usableSpace b := cSize_id _ (by omega) (by omega)
    have hcond : ¬ (newSize ≤ cSize (cInt (usableSpace b))) := by rw [hci, hcs]; omega
    have h1 : rOff - prefixSize = extSum pre := by omega
    have hnext := getNextBlock_last st pre b hdec hpos
    unfold resizeRegion
    rw [hO, bindOk, if_neg hcond]
    simp only [h1, hnext, bindOk, computeUsableSpaceE, bindErr]
  · intro rOff pre b hv hdec hoff hlt
    have hpos : ∀ c ∈ pre, 0 < c.extent :=
      fun c hc => good_pos c (hv.2.1 c (by rw [hdec]; simp [hc]))
    have hO := resizeOldSize_at st rOff pre b [] hdec hpos hoff
    have hBb := valid_block_bounds st.blocks hv b (by rw [hdec]; simp)
    have hci : cInt (usableSpace b) = usableSpace b := cInt_id _ (by omega) (by omega)
    have hcs : cSize (usableSpace b) = usableSpace b := cSize_id _ (by omega) (by omega)
    have hcond : ¬ (newSize ≤ cSize (cInt (usableSpace b))) := by rw [hci, hcs]; omega
    have h1 : rOff - prefixSize = extSum pre := by omega
    have hnext := getNextBlock_last st pre b hdec hpos
    unfold resizeRegionExtra
    rw [hO, bindOk, if_neg hcond]
    simp only [h1, hnext, bindOk, computeUsableSpaceE, bindErr]
  · intro b c post hv hdec hcalloc hlt
    have hO := resizeOldSize_at st prefixSize [] b (c :: post) hdec (by simp)
      (by simp [extSum_nil])
    have hBb := valid_block_bounds st.blocks hv b (by rw [hdec]; simp)
    have hci : cInt (usableSpace b) = usableSpace b := cInt_id _ (by omega) (by omega)
    have hcs : cSize (usableSpace b) = usableSpace b := cSize_id _ (by omega) (by omega)
    have hcond : ¬ (newSize ≤ cSize (cInt (usableSpace b))) := by rw [hci, hcs]; omega
    have hcpos : 0 < c.extent := good_pos c (hv.2.1 c (by rw [hdec]; simp))
    have hpostn : 0 ≤ extSum post := by
      refine extSum_nonneg post (fun d hd => good_pos d (hv.2.1 d ?_))
      rw [hdec]; simp [hd]
    have hnext : getNextBlock st 0 = .ok (some b.extent) := by
      have := getNextBlock_mid st [] b c post hdec (by simp) hcpos hpostn
      simpa [extSum_nil] using this
    have hbpos : 0 < b.extent := good_pos b (hv.2.1 b (by rw [hdec]; simp))
    have hseekb : seek st.blocks b.extent = some ([b], c, post) := by
      rw [hdec]
      have h2 := seek_pre [b] c post (by intro d hd; simp at hd; subst hd; exact hbpos)
      rw [extSum_cons, extSum_nil] at h2
      simpa using h2
    have husN : computeUsableSpaceE st (some b.extent) = .ok (usableSpace c) := by
      unfold computeUsableSpaceE blockAtE seekE
      simp only [hseekb]; rfl
    have hcb : blockAtE st 0 = .ok b := by
      unfold blockAtE seekE
      have : seek st.blocks 0 = some ([], b, c :: post) := by
        rw [hdec]
        have := seek_pre [] b (c :: post) (by simp)
        simpa [extSum_nil] using this
      simp only [this]; rfl
    have hcat : blockAtE st b.extent = .ok c := by
      unfold blockAtE seekE
      simp only [hseekb]; rfl
    have h1 : prefixSize - prefixSize = (0 : Int) := by ring
    unfold resizeRegionExtra
    rw [hO, bindOk, if_neg hcond]
    simp only [h1, hnext, bindOk, husN, hcb, hcat, hcalloc]
    unfold rrxAfterNext
    have hprev : getPrevBlock st (prefixSize - prefixSize) = .ok none := by
      rw [h1]
      unfold getPrevBlock
      rw [if_neg (by unfold suffixSize; omega)]
    simp only [h1] at hprev ⊢
    simp only [hprev, bindOk, computeUsableSpaceE, bindErr]
    simp only [Bool.not_true, pure_eq_ok, bindOk]

/-- Witness for resize_nullNeighbor_deref: concrete last-block and
first-block arenas on which the three NULL dereferences fire. -/
theorem resize_nullNeighbor_deref_witness :
    resizeRegion ⟨[⟨1048296, false⟩, ⟨280, true⟩], memZero⟩ (some 1048312) 300 =
      .error .nullDeref ∧
    resizeRegionExtra ⟨[⟨1048296, false⟩, ⟨280, true⟩], memZero⟩ (some 1048312) 300 =
      .error .nullDeref ∧
    resizeRegionExtra ⟨[⟨280, true⟩, ⟨1048296, true⟩], memZero⟩ (some 16) 300 =
      .error .nullDeref := by
  refine ⟨?_, ?_, ?_⟩
  · exact (resize_nullNeighbor_deref ⟨[⟨1048296, false⟩, ⟨280, true⟩], memZero⟩ 300).1
      1048312 [⟨1048296, false⟩] ⟨280, true⟩ (by decide) (by decide) (by decide) (by decide)
  · exact (resize_nullNeighbor_deref ⟨[⟨1048296, false⟩, ⟨280, true⟩], memZero⟩ 300).2.1
      1048312 [⟨1048296, false⟩] ⟨280, true⟩ (by decide) (by decide) (by decide) (by decide)
  · exact (resize_nullNeighbor_deref ⟨[⟨280, true⟩, ⟨1048296, true⟩], memZero⟩ 300).2.2
      ⟨280, true⟩ ⟨1048296, true⟩ [] (by decide) (by decide) (by decide) (by decide)

/-- Counterexample to claim C9.  Calling oldResizeRegion with a NULL region
and newSize = 8 on the freshly initialized arena does produce a new
allocation and does change the arena: the single free block is split and an
allocated block of extent 32 appears (realloc(NULL, n) semantics), refuting
"leaves the arena unchanged and does not produce a new allocation". -/
theorem resize_null_cex :
    runBlocks (oldResizeRegion ⟨[⟨1048576, false⟩], memZero⟩ none 8) =
      .ok (some 16, [⟨32, true⟩, ⟨1048544, false⟩]) ∧
    [Block.mk 32 true, ⟨1048544, false⟩] ≠ [Block.mk 1048576 false] := by
  refine ⟨by decide, by decide⟩

/-- Claim C9 as amended.  Null-region resize is a no-op only for
newSize = 0.  For newSize > 0: oldResizeRegion treats the NULL region like
malloc -- it is exactly firstFitAllocRegion (fresh allocation, arena
changed) -- while resizeRegion and resizeRegionExtra dereference the NULL
block pointer (getNextPrefix reads NULL->suffix) and abort. -/
theorem resize_null_spec (st : ArenaState) (newSize : Int) :
    (newSize = 0 →
      oldResizeRegion st none newSize = .ok (none, st) ∧
      resizeRegion st none newSize = .ok (none, st) ∧
      resizeRegionExtra st none newSize = .ok (none, st)) ∧
    (0 < newSize →
      oldResizeRegion st none newSize = firstFitAllocRegion st newSize ∧
      resizeRegion st none newSize = .error .nullDeref ∧
      resizeRegionExtra st none newSize = .error .nullDeref) := by
  have hO : resizeOldSize st none = .ok 0 := rfl
  have hz : cSize 0 = 0 := by unfold cSize; omega
  constructor
  · intro h0
    have hcond : newSize ≤ cSize 0 := by omega
    refine ⟨?_, ?_, ?_⟩
    · unfold oldResizeRegion; rw [hO, bindOk, if_pos hcond]
    · unfold resizeRegion; rw [hO, bindOk, if_pos hcond]
    · unfold resizeRegionExtra; rw [hO, bindOk, if_pos hcond]
  · intro hp
    have hcond : ¬ (newSize ≤ cSize 0) := by omega
    refine ⟨?_, ?_, ?_⟩
    · unfold oldResizeRegion
      rw [hO, bindOk, if_neg hcond]
      unfold resizeFallback
      cases halloc : firstFitAllocRegion st newSize with
      | error e => rw [bindErr]
      | ok x =>
        rw [bindOk]
        obtain ⟨n?, st1⟩ := x
        cases n? with
        | none =>
          rw [if_neg (by omega)]
          rfl
        | some nOff =>
          rw [if_neg (by omega)]
          rfl
    · unfold resizeRegion; rw [hO, bindOk, if_neg hcond]
    · unfold resizeRegionExtra; rw [hO, bindOk, if_neg hcond]

/-- Witness for resize_null_spec on the initial arena, at newSize 0 and 8. -/
theorem resize_null_spec_witness :
    oldResizeRegion ⟨[⟨1048576, false⟩], memZero⟩ none 0 =
      .ok (none, ⟨[⟨1048576, false⟩], memZero⟩) ∧
    resizeRegion ⟨[⟨1048576, false⟩], memZero⟩ none 8 = .error .nullDeref ∧
    resizeRegionExtra ⟨[⟨1048576, false⟩], memZero⟩ none 8 = .error .nullDeref ∧
    oldResizeRegion ⟨[⟨1048576, false⟩], memZero⟩ none 8 =
      firstFitAllocRegion ⟨[⟨1048576, false⟩], memZero⟩ 8 :=
  ⟨((resize_null_spec ⟨[⟨1048576, false⟩], memZero⟩ 0).1 (by decide)).1,
   ((resize_null_spec ⟨[⟨1048576, false⟩], memZero⟩ 8).2 (by decide)).2.1,
   ((resize_null_spec ⟨[⟨1048576, false⟩], memZero⟩ 8).2 (by decide)).2.2,
   ((resize_null_spec ⟨[⟨1048576, false⟩], memZero⟩ 8).2 (by decide)).1⟩

theorem setAllocated_at (st : ArenaState) (off : Int) (v : Bool) (pre : List Block) (b : Block)
    (post : List Block) (hdec : st.blocks = pre ++ b :: post)
    (hpos : ∀ c ∈ pre, 0 < c.extent) (hoff : off = extSum pre) :
    setAllocated st off v = .ok ⟨pre ++ { b with allocated := v } :: post, st.mem⟩ := by
  unfold setAllocated seekE
  simp only [hoff, hdec, seek_pre pre b post hpos]
  rfl

theorem getPrevBlock_zero (st : ArenaState) : getPrevBlock st 0 = .ok none := by
  unfold getPrevBlock
  rw [if_neg (by unfold suffixSize; omega)]

theorem getPrevBlock_at (st : ArenaState) (pre2 : List Block) (a b : Block)
    (post : List Block) (hdec : st.blocks = pre2 ++ a :: b :: post)
    (hpos : ∀ c ∈ pre2, 0 < c.extent) (hapos : 0 < a.extent)
    (h8 : suffixSize < extSum pre2 + a.extent) :
    getPrevBlock st (extSum pre2 + a.extent) = .ok (some (extSum pre2)) := by
  have hseek : seek st.blocks (extSum pre2 + a.extent) = some (pre2 ++ [a], b, post) := by
    rw [hdec]
    have h2 := seek_pre (pre2 ++ [a]) b post (by
      intro c hc
      rcases List.mem_append.mp hc with h | h
      · exact hpos c h
      · simp at h; subst h; exact hapos)
    rw [extSum_append, extSum_cons, extSum_nil] at h2
    simpa using h2
  unfold getPrevBlock seekE
  rw [if_pos (by omega)]
  simp only [hseek, bindOk, List.getLast?_concat]
  have : extSum pre2 + a.extent - a.extent = extSum pre2 := by ring
  rw [this]

theorem coalescePrev_zero (st : ArenaState) : coalescePrev st 0 = .ok (0, st) := by
  unfold coalescePrev
  rw [getPrevBlock_zero, bindOk]

theorem coalescePrev_merge (st : ArenaState) (pre2 : List Block) (a b : Block)
    (post : List Block) (hdec : st.blocks = pre2 ++ a :: b :: post)
    (hpos : ∀ c ∈ pre2, 0 < c.extent) (hapos : 0 < a.extent)
    (h8 : suffixSize < extSum pre2 + a.extent)
    (haf : a.allocated = false) (hbf : b.allocated = false)
    (hsize : prefixSize + suffixSize ≤ a.extent + b.extent) :
    coalescePrev st (extSum pre2 + a.extent) =
      .ok (extSum pre2, ⟨pre2 ++ ⟨a.extent + b.extent, false⟩ :: post, st.mem⟩) := by
  have hseek : seek st.blocks (extSum pre2 + a.extent) = some (pre2 ++ [a], b, post) := by
    rw [hdec]
    have h2 := seek_pre (pre2 ++ [a]) b post (by
      intro c hc
      rcases List.mem_append.mp hc with h | h
      · exact hpos c h
      · simp at h; subst h; exact hapos)
    rw [extSum_append, extSum_cons, extSum_nil] at h2
    simpa using h2
  have hseekA : seek st.blocks (extSum pre2) = some (pre2, a, b :: post) := by
    rw [hdec]; exact seek_pre pre2 a (b :: post) hpos
  unfold coalescePrev
  rw [getPrevBlock_at st pre2 a b post hdec hpos hapos h8, bindOk]
  unfold seekE blockAtE
  simp only [hseek, hseekA, bindOk, seekE]
  rw [if_pos (by simp [haf, hbf])]
  unfold makeFreeBlock
  rw [if_pos hsize, bindOk]
  simp only [List.dropLast_concat]

theorem coalescePrev_noMerge (st : ArenaState) (pre2 : List Block) (a b : Block)
    (post : List Block) (hdec : st.blocks = pre2 ++ a :: b :: post)
    (hpos : ∀ c ∈ pre2, 0 < c.extent) (hapos : 0 < a.extent)
    (h8 : suffixSize < extSum pre2 + a.extent)
    (hcond : a.allocated = true ∨ b.allocated = true) :
    coalescePrev st (extSum pre2 + a.extent) = .ok (extSum pre2 + a.extent, st) := by
  have hseek : seek st.blocks (extSum pre2 + a.extent) = some (pre2 ++ [a], b, post) := by
    rw [hdec]
    have h2 := seek_pre (pre2 ++ [a]) b post (by
      intro c hc
      rcases List.mem_append.mp hc with h | h
      · exact hpos c h
      · simp at h; subst h; exact hapos)
    rw [extSum_append, extSum_cons, extSum_nil] at h2
    simpa using h2
  have hseekA : seek st.blocks (extSum pre2) = some (pre2, a, b :: post) := by
    rw [hdec]; exact seek_pre pre2 a (b :: post) hpos
  unfold coalescePrev
  rw [getPrevBlock_at st pre2 a b post hdec hpos hapos h8, bindOk]
  unfold seekE blockAtE
  simp only [hseek, hseekA, bindOk, seekE]
  rw [if_neg (by rcases hcond with h | h <;> simp [h])]

/-- No two adjacent blocks of the chain are both free (the property
checkConsistency is said never to refute after a free). -/
def NoAdjFree (bs : List Block) : Prop :=
  List.Chain' (fun x y => x.allocated = true ∨ y.allocated = true) bs

theorem noAdjFree_decomp (pre : List Block) (b : Block) (post : List Block)
    (h : NoAdjFree (pre ++ b :: post)) :
    NoAdjFree pre ∧ NoAdjFree post ∧
    (∀ a ∈ pre.getLast?, a.allocated = true ∨ b.allocated = true) ∧
    (∀ c ∈ post.head?, b.allocated = true ∨ c.allocated = true) := by
  unfold NoAdjFree at h ⊢
  rw [List.chain'_append] at h
  obtain ⟨h1, h2, h3⟩ := h
  rw [List.chain'_cons'] at h2
  refine ⟨h1, h2.2, ?_, h2.1⟩
  intro a ha
  exact h3 a ha b (by simp)

theorem noAdjFree_build (pre : List Block) (m : Block) (post : List Block)
    (hpre : NoAdjFree pre) (hpost : NoAdjFree post)
    (hL : ∀ a ∈ pre.getLast?, a.allocated = true ∨ m.allocated = true)
    (hR : ∀ c ∈ post.head?, m.allocated = true ∨ c.allocated = true) :
    NoAdjFree (pre ++ m :: post) := by
  unfold NoAdjFree at hpre hpost ⊢
  rw [List.chain'_append]
  refine ⟨hpre, ?_, ?_⟩
  · rw [List.chain'_cons']
    exact ⟨hR, hpost⟩
  · intro a ha y hy
    simp at hy
    subst hy
    exact hL a ha

/-- The head-side merge of freeRegion's coalesce: absorb a free head of the
tail into the freed block's extent. -/
def mergeNextShape (post : List Block) (e : Int) : List Block × Int :=
  match post with
  | c :: rest => if c.allocated then (post, e) else (rest, e + c.extent)
  | [] => (post, e)

/-- The predecessor-side merge of freeRegion's coalesce. -/
def mergePrevShape (pre : List Block) (e : Int) : List Block × Int :=
  match pre.getLast? with
  | some a => if a.allocated then (pre, e) else (pre.dropLast, a.extent + e)
  | none => (pre, e)

/-- The chain freeRegion leaves behind: the freed block, first merged with
a free predecessor, then with a free successor. -/
def coalesceShape (pre : List Block) (b : Block) (post : List Block) : List Block :=
  let p1 := mergePrevShape pre b.extent
  let p2 := mergeNextShape post p1.2
  p1.1 ++ ⟨p2.2, false⟩ :: p2.1

theorem block_eta_free (b : Block) (h : b.allocated = false) : Block.mk b.extent false = b := by
  cases b with
  | mk e al => simp at h; simp [h]


theorem coalesce_free : ∀ (st1 : ArenaState) (pre : List Block) (b : Block) (post : List Block),
    st1.blocks = pre ++ b :: post → (∀ c ∈ st1.blocks, GoodBlock c) → b.allocated = false →
    ∃ v : Int, coalesce st1 (extSum pre) = .ok (v, ⟨coalesceShape pre b post, st1.mem⟩)
  | ⟨bl, mm⟩, pre, b, post, hdec, hgood, hbf => by
    simp only at hdec
    subst hdec
    have hgood' : ∀ c ∈ pre ++ b :: post, GoodBlock c := by simpa using hgood
    have hposAll : ∀ c ∈ pre ++ b :: post, 0 < c.extent := fun c hc => good_pos c (hgood' c hc)
    have hbgood : GoodBlock b := hgood' b (by simp)
    have hbpos : 0 < b.extent := good_pos b hbgood
    have hpospre : ∀ c ∈ pre, 0 < c.extent := fun c hc => hposAll c (by simp [hc])
    have hpospost : ∀ c ∈ post, 0 < c.extent := fun c hc => hposAll c (by simp [hc])
    have hprenn := extSum_nonneg pre hpospre
    have hbeta := block_eta_free b hbf
    have hP : prefixSize = 16 := rfl
    have hS : suffixSize = 8 := rfl
    have hs24 : prefixSize + suffixSize ≤ b.extent := hbgood.1
    unfold coalesce
    rcases List.eq_nil_or_concat pre with rfl | ⟨pre2, a, hpre⟩
    · rw [extSum_nil, coalescePrev_zero, bindOk]
      simp only []
      cases post with
      | nil =>
        have hnx := getNextBlock_last ⟨[] ++ b :: [], mm⟩ [] b rfl (by simp)
        rw [extSum_nil] at hnx
        rw [hnx, bindOk]
        exact ⟨0, by simp [coalesceShape, mergePrevShape, mergeNextShape, hbeta]⟩
      | cons c post2 =>
        have hcgood : GoodBlock c := hgood' c (by simp)
        have hnx := getNextBlock_mid ⟨[] ++ b :: c :: post2, mm⟩ [] b c post2 rfl (by simp)
          (good_pos c hcgood) (extSum_nonneg post2 (fun d hd => hpospost d (by simp [hd])))
        rw [extSum_nil] at hnx
        rw [hnx, bindOk]
        simp only []
        by_cases hca : c.allocated
        · have hnm := coalescePrev_noMerge ⟨[] ++ b :: c :: post2, mm⟩ [] b c post2 rfl
            (by simp) hbpos (by rw [extSum_nil]; omega) (.inr hca)
          rw [extSum_nil] at hnm
          rw [hnm]
          exact ⟨0 + b.extent,
            by simp [coalesceShape, mergePrevShape, mergeNextShape, hca, hbeta]⟩
        · have hm := coalescePrev_merge ⟨[] ++ b :: c :: post2, mm⟩ [] b c post2 rfl
            (by simp) hbpos (by rw [extSum_nil]; omega) hbf (by simpa using hca)
            (by have := hcgood.1; omega)
          rw [extSum_nil] at hm
          rw [hm]
          exact ⟨0, by simp [coalesceShape, mergePrevShape, mergeNextShape, hca]⟩
    · rw [List.concat_eq_append] at hpre
      subst hpre
      have hagood : GoodBlock a := hgood' a (by simp)
      have hapos : 0 < a.extent := good_pos a hagood
      have hpos2 : ∀ c ∈ pre2, 0 < c.extent := fun c hc => hpospre c (by simp [hc])
      have hnn2 : 0 ≤ extSum pre2 := extSum_nonneg pre2 hpos2
      have hoffa : extSum (pre2 ++ [a]) = extSum pre2 + a.extent := by
        rw [extSum_append, extSum_cons, extSum_nil]; ring
      have ha24 : prefixSize + suffixSize ≤ a.extent := hagood.1
      have h8a : suffixSize < extSum pre2 + a.extent := by omega
      rw [hoffa]
      by_cases ha : a.allocated
      · have hnm := coalescePrev_noMerge ⟨(pre2 ++ [a]) ++ b :: post, mm⟩ pre2 a b post
          (by simp) hpos2 hapos h8a (.inl ha)
        rw [hnm, bindOk]
        simp only []
        cases post with
        | nil =>
          have hnx := getNextBlock_last ⟨(pre2 ++ [a]) ++ b :: [], mm⟩ (pre2 ++ [a]) b rfl
            hpospre
          rw [hoffa] at hnx
          rw [hnx, bindOk]
          exact ⟨extSum pre2 + a.extent, by
            simp [coalesceShape, mergePrevShape, mergeNextShape, List.getLast?_concat, ha,
              hbeta]⟩
        | cons c post2 =>
          have hcgood : GoodBlock c := hgood' c (by simp)
          have hnx := getNextBlock_mid ⟨(pre2 ++ [a]) ++ b :: c :: post2, mm⟩ (pre2 ++ [a])
            b c post2 rfl hpospre (good_pos c hcgood)
            (extSum_nonneg post2 (fun d hd => hpospost d (by simp [hd])))
          rw [hoffa] at hnx
          rw [hnx, bindOk]
          simp only []
          by_cases hca : c.allocated
          · have hnm2 := coalescePrev_noMerge ⟨(pre2 ++ [a]) ++ b :: c :: post2, mm⟩
              (pre2 ++ [a]) b c post2 (by simp) hpospre hbpos (by rw [hoffa]; omega)
              (.inr hca)
            rw [hoffa] at hnm2
            rw [hnm2]
            exact ⟨extSum pre2 + a.extent + b.extent, by
              simp [coalesceShape, mergePrevShape, mergeNextShape, List.getLast?_concat, ha,
                hca, hbeta]⟩
          · have hm2 := coalescePrev_merge ⟨(pre2 ++ [a]) ++ b :: c :: post2, mm⟩
              (pre2 ++ [a]) b c post2 (by simp) hpospre hbpos (by rw [hoffa]; omega) hbf
              (by simpa using hca) (by have := hcgood.1; omega)
            rw [hoffa] at hm2
            rw [hm2]
            exact ⟨extSum pre2 + a.extent, by
              simp [coalesceShape, mergePrevShape, mergeNextShape, List.getLast?_concat, ha,
                hca]⟩
      · have hm := coalescePrev_merge ⟨(pre2 ++ [a]) ++ b :: post, mm⟩ pre2 a b post
          (by simp) hpos2 hapos h8a (by simpa using ha) hbf (by omega)
        rw [hm, bindOk]
        simp only []
        cases post with
        | nil =>
          have hnx := getNextBlock_last ⟨pre2 ++ ⟨a.extent + b.extent, false⟩ :: [], mm⟩
            pre2 ⟨a.extent + b.extent, false⟩ rfl hpos2
          rw [hnx, bindOk]
          exact ⟨extSum pre2, by
            simp [coalesceShape, mergePrevShape, mergeNextShape, List.getLast?_concat, ha]⟩
        | cons c post2 =>
          have hcgood : GoodBlock c := hgood' c (by simp)
          have hnx := getNextBlock_mid ⟨pre2 ++ ⟨a.extent + b.extent, false⟩ :: c :: post2, mm⟩
            pre2 ⟨a.extent + b.extent, false⟩ c post2 rfl hpos2 (good_pos c hcgood)
            (extSum_nonneg post2 (fun d hd => hpospost d (by simp [hd])))
          rw [hnx, bindOk]
          simp only []
          by_cases hca : c.allocated
          · have hnm2 := coalescePrev_noMerge
              ⟨pre2 ++ ⟨a.extent + b.extent, false⟩ :: c :: post2, mm⟩
              pre2 ⟨a.extent + b.extent, false⟩ c post2 rfl hpos2 (by simp; omega)
              (by simp; omega) (.inr hca)
            rw [hnm2]
            exact ⟨extSum pre2 + (a.extent + b.extent), by
              simp [coalesceShape, mergePrevShape, mergeNextShape, List.getLast?_concat, ha,
                hca]⟩
          · have hm2 := coalescePrev_merge
              ⟨pre2 ++ ⟨a.extent + b.extent, false⟩ :: c :: post2, mm⟩
              pre2 ⟨a.extent + b.extent, false⟩ c post2 rfl hpos2 (by simp; omega)
              (by simp; omega) rfl (by simpa using hca) (by simp; have := hcgood.1; omega)
            rw [hm2]
            exact ⟨extSum pre2, by
              simp [coalesceShape, mergePrevShape, mergeNextShape, List.getLast?_concat, ha,
                hca]⟩

theorem coalesceShape_extSum (pre : List Block) (b : Block) (post : List Block) :
    extSum (coalesceShape pre b post) = extSum pre + b.extent + extSum post := by
  unfold coalesceShape mergePrevShape mergeNextShape
  rcases List.eq_nil_or_concat pre with rfl | ⟨pre2, a, hpre⟩
  · cases post with
    | nil => simp [extSum_nil, extSum_cons, extSum_append]
    | cons c post2 =>
      by_cases hca : c.allocated <;>
        simp [hca, extSum_nil, extSum_cons, extSum_append] <;> ring
  · rw [List.concat_eq_append] at hpre
    subst hpre
    by_cases ha : a.allocated
    · cases post with
      | nil =>
        simp [ha, List.getLast?_concat, extSum_nil, extSum_cons, extSum_append]
        ring
      | cons c post2 =>
        by_cases hca : c.allocated <;>
          simp [ha, hca, List.getLast?_concat, extSum_nil, extSum_cons, extSum_append] <;>
          ring
    · cases post with
      | nil =>
        simp [ha, List.getLast?_concat, List.dropLast_concat, extSum_nil, extSum_cons,
          extSum_append]
        ring
      | cons c post2 =>
        by_cases hca : c.allocated <;>
          simp [ha, hca, List.getLast?_concat, List.dropLast_concat, extSum_nil,
            extSum_cons, extSum_append] <;> ring

theorem mergePrevShape_spec (pre : List Block) (e : Int) (hpre : NoAdjFree pre) :
    NoAdjFree (mergePrevShape pre e).1 ∧
    (∀ x ∈ (mergePrevShape pre e).1.getLast?, x.allocated = true) := by
  unfold mergePrevShape
  rcases List.eq_nil_or_concat pre with rfl | ⟨pre2, a, hpre2⟩
  · simp only [List.getLast?_nil]
    exact ⟨hpre, by simp⟩
  · rw [List.concat_eq_append] at hpre2
    subst hpre2
    have hdec := noAdjFree_decomp pre2 a [] (by simpa using hpre)
    by_cases ha : a.allocated
    · simp only [List.getLast?_concat, ha, if_true]
      refine ⟨hpre, ?_⟩
      intro x hx
      simp only [List.getLast?_concat, Option.mem_def, Option.some.injEq] at hx
      subst hx
      exact ha
    · simp only [List.getLast?_concat, ha, if_false, List.dropLast_concat]
      refine ⟨hdec.1, ?_⟩
      intro x hx
      rcases hdec.2.2.1 x hx with h | h
      · exact h
      · exact absurd h (by simp [ha])

theorem mergeNextShape_spec (post : List Block) (e : Int) (hpost : NoAdjFree post) :
    NoAdjFree (mergeNextShape post e).1 ∧
    (∀ y ∈ (mergeNextShape post e).1.head?, y.allocated = true) := by
  unfold mergeNextShape
  cases post with
  | nil => exact ⟨hpost, by simp⟩
  | cons c post2 =>
    by_cases hca : c.allocated
    · simp only [hca, if_true]
      refine ⟨hpost, ?_⟩
      intro y hy
      simp only [List.head?_cons, Option.mem_def, Option.some.injEq] at hy
      subst hy
      exact hca
    · simp only [hca, if_false]
      rw [NoAdjFree, List.chain'_cons'] at hpost
      refine ⟨hpost.2, ?_⟩
      intro y hy
      rcases hpost.1 y hy with h | h
      · exact absurd h (by simp [hca])
      · exact h

theorem coalesceShape_noAdjFree (pre : List Block) (b : Block) (post : List Block)
    (hpre : NoAdjFree pre) (hpost : NoAdjFree post) :
    NoAdjFree (coalesceShape pre b post) := by
  have h1 := mergePrevShape_spec pre b.extent hpre
  have h2 := mergeNextShape_spec post (mergePrevShape pre b.extent).2 hpost
  unfold coalesceShape
  exact noAdjFree_build _ _ _ h1.1 h2.1 (fun x hx => .inl (h1.2 x hx))
    (fun y hy => .inr (h2.2 y hy))

theorem mergePrevShape_parts (pre : List Block) (e : Int)
    (hpre : ∀ c ∈ pre, GoodBlock c) (he24 : prefixSize + suffixSize ≤ e)
    (hed : (8 : Int) ∣ e) :
    (∀ c ∈ (mergePrevShape pre e).1, GoodBlock c) ∧
    prefixSize + suffixSize ≤ (mergePrevShape pre e).2 ∧
    (8 : Int) ∣ (mergePrevShape pre e).2 ∧
    extSum (mergePrevShape pre e).1 + (mergePrevShape pre e).2 = extSum pre + e ∧
    extSum (mergePrevShape pre e).1 ≤ extSum pre := by
  unfold mergePrevShape
  rcases List.eq_nil_or_concat pre with rfl | ⟨pre2, a, hp⟩
  · simp only [List.getLast?_nil]
    exact ⟨hpre, he24, hed, by ring, le_refl _⟩
  · rw [List.concat_eq_append] at hp
    subst hp
    have ha := hpre a (by simp)
    have hapos := good_pos a ha
    by_cases hal : a.allocated
    · simp only [List.getLast?_concat]
      rw [if_pos hal]
      exact ⟨hpre, he24, hed, by ring, le_refl _⟩
    · simp only [List.getLast?_concat]
      rw [if_neg hal]
      simp only [List.dropLast_concat]
      have hsum : extSum (pre2 ++ [a]) = extSum pre2 + a.extent := by
        rw [extSum_append, extSum_cons, extSum_nil]; ring
      refine ⟨fun c hc => hpre c (by simp [hc]), by have := ha.1; omega,
        dvd_add ha.2 hed, by omega, by omega⟩

theorem mergeNextShape_parts (post : List Block) (e : Int)
    (hpost : ∀ c ∈ post, GoodBlock c) (he24 : prefixSize + suffixSize ≤ e)
    (hed : (8 : Int) ∣ e) :
    (∀ c ∈ (mergeNextShape post e).1, GoodBlock c) ∧
    prefixSize + suffixSize ≤ (mergeNextShape post e).2 ∧
    (8 : Int) ∣ (mergeNextShape post e).2 ∧
    extSum (mergeNextShape post e).1 + (mergeNextShape post e).2 = extSum post + e ∧
    e ≤ (mergeNextShape post e).2 := by
  unfold mergeNextShape
  cases post with
  | nil => exact ⟨hpost, he24, hed, by rw [extSum_nil], le_refl _⟩
  | cons c post2 =>
    have hc := hpost c (by simp)
    have hcpos := good_pos c hc
    simp only []
    by_cases hca : c.allocated
    · rw [if_pos hca]
      exact ⟨hpost, he24, hed, by ring, le_refl _⟩
    · rw [if_neg hca]
      refine ⟨fun d hd => hpost d (by simp [hd]), by have := hc.1; omega,
        dvd_add hed hc.2, by rw [extSum_cons]; ring, by omega⟩

theorem coalesceShape_props (pre : List Block) (b : Block) (post : List Block)
    (hgood : ∀ c ∈ pre ++ b :: post, GoodBlock c) :
    (∀ c ∈ coalesceShape pre b post, GoodBlock c) ∧
    (∃ preR postR mR, coalesceShape pre b post = preR ++ mR :: postR ∧
      mR.allocated = false ∧ extSum preR ≤ extSum pre ∧
      extSum pre + b.extent ≤ extSum preR + mR.extent) := by
  have hb := hgood b (by simp)
  have hpre : ∀ c ∈ pre, GoodBlock c := fun c hc => hgood c (by simp [hc])
  have hpost : ∀ c ∈ post, GoodBlock c := fun c hc => hgood c (by simp [hc])
  have h1 := mergePrevShape_parts pre b.extent hpre hb.1 hb.2
  have h2 := mergeNextShape_parts post (mergePrevShape pre b.extent).2 hpost h1.2.1 h1.2.2.1
  constructor
  · intro c hc
    unfold coalesceShape at hc
    simp only [List.mem_append, List.mem_cons] at hc
    rcases hc with hc | hc | hc
    · exact h1.1 c hc
    · subst hc
      exact ⟨h2.2.1, h2.2.2.1⟩
    · exact h2.1 c hc
  · refine ⟨(mergePrevShape pre b.extent).1,
      (mergeNextShape post (mergePrevShape pre b.extent).2).1,
      ⟨(mergeNextShape post (mergePrevShape pre b.extent).2).2, false⟩, rfl, rfl,
      h1.2.2.2.2, ?_⟩
    have e1 := h1.2.2.2.1
    have e2 := h2.2.2.2.2
    simp only []
    omega

/-- Claim C3 (confirmed).  freeRegion is a no-op on a NULL region; on a
region it marks the block free and coalesces it first with the predecessor
and then with the successor (the resulting chain is exactly coalesceShape),
so that when the arena had no two adjacent free blocks before the call it
has none after; the chain still partitions the same range into sound
blocks, the payload memory is untouched, and the freed region now lies
inside a free block. -/
theorem freeRegion_spec (st : ArenaState) (rOff : Int) (pre : List Block) (b : Block)
    (post : List Block) (hv : ValidArena st.blocks) (hna : NoAdjFree st.blocks)
    (hdec : st.blocks = pre ++ b :: post) (hoff : rOff = extSum pre + prefixSize) :
    freeRegion st none = .ok st ∧
    freeRegion st (some rOff) =
      .ok ⟨coalesceShape pre { b with allocated := false } post, st.mem⟩ ∧
    NoAdjFree (coalesceShape pre { b with allocated := false } post) ∧
    ValidArena (coalesceShape pre { b with allocated := false } post) ∧
    extSum (coalesceShape pre { b with allocated := false } post) = extSum st.blocks ∧
    (∃ preR postR mR,
      coalesceShape pre { b with allocated := false } post = preR ++ mR :: postR ∧
      mR.allocated = false ∧ extSum preR ≤ extSum pre ∧
      extSum pre + b.extent ≤ extSum preR + mR.extent) := by
  have hgood : ∀ c ∈ st.blocks, GoodBlock c := hv.2.1
  have hpospre : ∀ c ∈ pre, 0 < c.extent :=
    fun c hc => good_pos c (hgood c (by rw [hdec]; simp [hc]))
  have hbgood : GoodBlock b := hgood b (by rw [hdec]; simp)
  set b' : Block := { b with allocated := false } with hb'
  have hgood1 : ∀ c ∈ pre ++ b' :: post, GoodBlock c := by
    intro c hc
    simp only [List.mem_append, List.mem_cons] at hc
    rcases hc with hc | hc | hc
    · exact hgood c (by rw [hdec]; simp [hc])
    · subst hc
      exact ⟨hbgood.1, hbgood.2⟩
    · exact hgood c (by rw [hdec]; simp [hc])
  have hrun : freeRegion st (some rOff) = .ok ⟨coalesceShape pre b' post, st.mem⟩ := by
    unfold freeRegion
    simp only []
    rw [show rOff - prefixSize = extSum pre from by omega]
    rw [setAllocated_at st (extSum pre) false pre b post hdec hpospre rfl, bindOk]
    obtain ⟨v, hco⟩ := coalesce_free ⟨pre ++ b' :: post, st.mem⟩ pre b' post rfl
      (by simpa using hgood1) rfl
    rw [hco, bindOk]
  have hnad := noAdjFree_decomp pre b post (by rw [← hdec]; exact hna)
  have hprops := coalesceShape_props pre b' post hgood1
  refine ⟨rfl, hrun, coalesceShape_noAdjFree pre b' post hnad.1 hnad.2.1, ?_, ?_, ?_⟩
  · obtain ⟨preR, postR, mR, hdecR, _, _, _⟩ := hprops.2
    refine ⟨?_, hprops.1, ?_⟩
    · rw [hdecR]
      simp
    · have h1 := coalesceShape_extSum pre b' post
      have h2 : extSum st.blocks = extSum pre + b.extent + extSum post := by
        rw [hdec, extSum_append, extSum_cons]; ring
      have h3 := hv.2.2
      have hbe : b'.extent = b.extent := rfl
      omega
  · have h1 := coalesceShape_extSum pre b' post
    have h2 : extSum st.blocks = extSum pre + b.extent + extSum post := by
      rw [hdec, extSum_append, extSum_cons]; ring
    have hbe : b'.extent = b.extent := rfl
    omega
  · obtain ⟨preR, postR, mR, hdecR, hmf, hle, hcov⟩ := hprops.2
    exact ⟨preR, postR, mR, hdecR, hmf, hle, by have hbe : b'.extent = b.extent := rfl; omega⟩

/-- Witness for freeRegion_spec: freeing the middle allocated block of a
three-block arena merges it with its free predecessor and successor. -/
theorem freeRegion_spec_witness :
    freeRegion ⟨[⟨40, false⟩, ⟨40, true⟩, ⟨40, false⟩, ⟨1048456, true⟩], memZero⟩ (some 56) =
      .ok ⟨coalesceShape [⟨40, false⟩] ⟨40, false⟩ [⟨40, false⟩, ⟨1048456, true⟩], memZero⟩ ∧
    NoAdjFree (coalesceShape [⟨40, false⟩] ⟨40, false⟩ [⟨40, false⟩, ⟨1048456, true⟩]) := by
  have h := freeRegion_spec ⟨[⟨40, false⟩, ⟨40, true⟩, ⟨40, false⟩, ⟨1048456, true⟩], memZero⟩
    56 [⟨40, false⟩] ⟨40, true⟩ [⟨40, false⟩, ⟨1048456, true⟩] (by decide)
    (by simp [NoAdjFree, List.chain'_cons]) (by decide) (by decide)
  exact ⟨h.2.1, h.2.2.1⟩

theorem two_decomp : ∀ (p1 l : List Block) (x : Block) (s1 p2 : List Block) (y : Block)
    (s2 : List Block), l = p1 ++ x :: s1 → l = p2 ++ y :: s2 →
    (p1 = p2 ∧ x = y ∧ s1 = s2) ∨
    (∃ mid, p2 = p1 ++ x :: mid) ∨ (∃ mid, p1 = p2 ++ y :: mid)
  | [], l, x, s1, [], y, s2, h1, h2 => by
    subst h1
    simp only [List.nil_append] at h2
    injection h2 with ha hb
    exact .inl ⟨rfl, ha, hb⟩
  | [], l, x, s1, y' :: p2', y, s2, h1, h2 => by
    subst h1
    simp only [List.nil_append, List.cons_append] at h2
    injection h2 with ha hb
    subst ha
    exact .inr (.inl ⟨p2', rfl⟩)
  | x' :: p1', l, x, s1, [], y, s2, h1, h2 => by
    subst h2
    simp only [List.nil_append, List.cons_append] at h1
    injection h1 with ha hb
    subst ha
    exact .inr (.inr ⟨p1', rfl⟩)
  | x' :: p1', l, x, s1, y' :: p2', y, s2, h1, h2 => by
    subst h1
    simp only [List.cons_append] at h2
    injection h2 with ha hb
    subst ha
    rcases two_decomp p1' (p1' ++ x :: s1) x s1 p2' y s2 rfl hb with h | ⟨mid, hm⟩ | ⟨mid, hm⟩
    · exact .inl ⟨by rw [h.1], h.2.1, h.2.2⟩
    · exact .inr (.inl ⟨mid, by rw [hm]; rfl⟩)
    · exact .inr (.inr ⟨mid, by rw [hm]; rfl⟩)

theorem decomp_lt (l p1 : List Block) (x : Block) (s1 p2 : List Block) (y : Block)
    (s2 : List Block) (h1 : l = p1 ++ x :: s1) (h2 : l = p2 ++ y :: s2)
    (hlt : p1.length < p2.length) : ∃ mid, p2 = p1 ++ x :: mid := by
  rcases two_decomp p1 l x s1 p2 y s2 h1 h2 with h | h | ⟨mid, hm⟩
  · rw [h.1] at hlt; omega
  · exact h
  · rw [hm] at hlt
    simp at hlt

/-- Distinct blocks of a chain occupy disjoint byte ranges: for an earlier
block, even the end of its whole extent (which strictly contains its
region) lies before the later block's region start.  Hence distinct
allocated regions never overlap. -/
def RegionsSeparate (bs : List Block) : Prop :=
  ∀ (p1 : List Block) (b1 : Block) (s1 p2 : List Block) (b2 : Block) (s2 : List Block),
    bs = p1 ++ b1 :: s1 → bs = p2 ++ b2 :: s2 → p1.length < p2.length →
    extSum p1 + b1.extent - suffixSize ≤ extSum p2 + prefixSize

theorem regionsSeparate_of_pos (bs : List Block) (h : ∀ c ∈ bs, 0 < c.extent) :
    RegionsSeparate bs := by
  intro p1 b1 s1 p2 b2 s2 h1 h2 hlt
  obtain ⟨mid, hmid⟩ := decomp_lt bs p1 b1 s1 p2 b2 s2 h1 h2 hlt
  subst hmid
  rw [extSum_append, extSum_cons]
  have hmidnn : 0 ≤ extSum mid := by
    refine extSum_nonneg mid (fun c hc => h c ?_)
    rw [h2]
    simp [hc]
  have hP : prefixSize = 16 := rfl
  have hS : suffixSize = 8 := rfl
  omega

theorem initArena_nonempty (st : ArenaState) (h : st.blocks ≠ []) : initArena st = st := by
  unfold initArena
  rw [if_neg (by simpa using h)]

theorem allocFromFind_found (st : ArenaState) (s : Int) (pre : List Block) (b : Block)
    (post : List Block) (hdec : st.blocks = pre ++ b :: post)
    (hpos : ∀ c ∈ pre, 0 < c.extent) (hs : 0 ≤ s)
    (hbig : prefixSize + suffixSize ≤ b.extent) :
    allocFromFind st (align8 s) (some (extSum pre)) =
      .ok (some (extSum pre + prefixSize),
        ⟨(if align8 s + prefixSize + suffixSize + 8 ≤ usableSpace b then
            pre ++ ⟨prefixSize + suffixSize + align8 s, true⟩ ::
              ⟨b.extent - (prefixSize + suffixSize + align8 s), false⟩ :: post
          else pre ++ { b with allocated := true } :: post), st.mem⟩) := by
  have hseek : seek st.blocks (extSum pre) = some (pre, b, post) := by
    rw [hdec]; exact seek_pre pre b post hpos
  have hP : prefixSize = 16 := rfl
  have hS : suffixSize = 8 := rfl
  have has := align8_nonneg s hs
  unfold allocFromFind blockAtE seekE
  simp only [hseek, bindOk]
  by_cases hsplit : align8 s + prefixSize + suffixSize + 8 ≤ usableSpace b
  · rw [if_pos hsplit, if_pos hsplit]
    unfold usableSpace at hsplit
    have hrun : splitBlockAt st (extSum pre) (prefixSize + suffixSize + align8 s) =
        .ok ⟨pre ++ ⟨prefixSize + suffixSize + align8 s, false⟩ ::
          ⟨b.extent - (prefixSize + suffixSize + align8 s), false⟩ :: post, st.mem⟩ := by
      unfold splitBlockAt seekE makeFreeBlock
      simp only [hseek, bindOk]
      rw [if_pos (by omega), bindOk, if_pos (by omega), bindOk]
    rw [hrun, bindOk]
    have hset := setAllocated_at
      ⟨pre ++ ⟨prefixSize + suffixSize + align8 s, false⟩ ::
        ⟨b.extent - (prefixSize + suffixSize + align8 s), false⟩ :: post, st.mem⟩
      (extSum pre) true pre ⟨prefixSize + suffixSize + align8 s, false⟩
      (⟨b.extent - (prefixSize + suffixSize + align8 s), false⟩ :: post) rfl hpos rfl
    rw [hset, bindOk]
  · rw [if_neg hsplit, if_neg hsplit]
    rw [pure_eq_ok, bindOk]
    have hset := setAllocated_at st (extSum pre) true pre b post hdec hpos rfl
    rw [hset, bindOk]

/-- What every successful allocation guarantees (claim C1): the returned
region sits prefixSize past a block that was free with usable space
covering the request; that block is split exactly when its usable space is
at least align8(s) + prefixSize + suffixSize + 8 (allocated head re-stamped
to exactly the aligned request, free sliver carved from the tail),
otherwise only marked allocated; the region offset is 8-aligned; the
resulting chain is a sound partition of the same range whose distinct
blocks -- hence distinct allocated regions -- are pairwise disjoint; and
the block now holding the region is allocated with usable space >= s. -/
def AllocPost (st : ArenaState) (s f : Int)
    (out : Except CErr (Option Int × ArenaState)) : Prop :=
  ∃ pre b post bs2,
    st.blocks = pre ++ b :: post ∧ f = extSum pre ∧
    b.allocated = false ∧ s ≤ usableSpace b ∧
    bs2 = (if align8 s + prefixSize + suffixSize + 8 ≤ usableSpace b then
        pre ++ ⟨prefixSize + suffixSize + align8 s, true⟩ ::
          ⟨b.extent - (prefixSize + suffixSize + align8 s), false⟩ :: post
      else pre ++ { b with allocated := true } :: post) ∧
    out = .ok (some (f + prefixSize), ⟨bs2, st.mem⟩) ∧
    (8 : Int) ∣ f + prefixSize ∧
    ValidArena bs2 ∧ RegionsSeparate bs2 ∧
    (∃ b2 post2, bs2 = pre ++ b2 :: post2 ∧ b2.allocated = true ∧ s ≤ usableSpace b2)

theorem allocPost_assemble (st : ArenaState) (s : Int) (pre : List Block) (b : Block)
    (post : List Block) (hv : ValidArena st.blocks) (hs : 0 ≤ s)
    (hdec : st.blocks = pre ++ b :: post) (hbf : b.allocated = false)
    (hbs : s ≤ usableSpace b)
    (out : Except CErr (Option Int × ArenaState))
    (hout : out = .ok (some (extSum pre + prefixSize),
      ⟨(if align8 s + prefixSize + suffixSize + 8 ≤ usableSpace b then
          pre ++ ⟨prefixSize + suffixSize + align8 s, true⟩ ::
            ⟨b.extent - (prefixSize + suffixSize + align8 s), false⟩ :: post
        else pre ++ { b with allocated := true } :: post), st.mem⟩)) :
    AllocPost st s (extSum pre) out := by
  have hP : prefixSize = 16 := rfl
  have hS : suffixSize = 8 := rfl
  have hB : DEFAULT_BRKSIZE = 1048576 := rfl
  have hgood := hv.2.1
  have hbgood : GoodBlock b := hgood b (by rw [hdec]; simp)
  have hpregood : ∀ c ∈ pre, GoodBlock c := fun c hc => hgood c (by rw [hdec]; simp [hc])
  have hpostgood : ∀ c ∈ post, GoodBlock c := fun c hc => hgood c (by rw [hdec]; simp [hc])
  have has := align8_nonneg s hs
  have hasd := align8_dvd s
  have hsal := le_align8 s
  have hsum : extSum st.blocks = extSum pre + b.extent + extSum post := by
    rw [hdec, extSum_append, extSum_cons]; ring
  have hvB := hv.2.2
  refine ⟨pre, b, post, _, hdec, rfl, hbf, hbs, rfl, hout, ?_, ?_, ?_, ?_⟩
  · exact dvd_add (extSum_good_dvd pre hpregood) (by decide : (8 : Int) ∣ prefixSize)
  · by_cases hsplit : align8 s + prefixSize + suffixSize + 8 ≤ usableSpace b
    · rw [if_pos hsplit]
      unfold usableSpace at hsplit
      refine ⟨by simp, ?_, ?_⟩
      · intro c hc
        simp only [List.mem_append, List.mem_cons] at hc
        rcases hc with hc | hc | hc | hc
        · exact hpregood c hc
        · subst hc
          refine ⟨?_, ?_⟩
          · show prefixSize + suffixSize ≤ prefixSize + suffixSize + align8 s
            omega
          · show (8 : Int) ∣ prefixSize + suffixSize + align8 s
            exact dvd_add (by decide : (8 : Int) ∣ prefixSize + suffixSize) hasd
        · subst hc
          refine ⟨?_, ?_⟩
          · show prefixSize + suffixSize ≤ b.extent - (prefixSize + suffixSize + align8 s)
            omega
          · show (8 : Int) ∣ b.extent - (prefixSize + suffixSize + align8 s)
            exact dvd_sub hbgood.2 (dvd_add (by decide : (8 : Int) ∣ prefixSize + suffixSize) hasd)
        · exact hpostgood c hc
      · have : extSum (pre ++ ⟨prefixSize + suffixSize + align8 s, true⟩ ::
            ⟨b.extent - (prefixSize + suffixSize + align8 s), false⟩ :: post) =
            extSum pre + b.extent + extSum post := by
          rw [extSum_append, extSum_cons, extSum_cons]
          simp only []
          ring
        omega
    · rw [if_neg hsplit]
      refine ⟨by simp, ?_, ?_⟩
      · intro c hc
        simp only [List.mem_append, List.mem_cons] at hc
        rcases hc with hc | hc | hc
        · exact hpregood c hc
        · subst hc
          exact ⟨hbgood.1, hbgood.2⟩
        · exact hpostgood c hc
      · have : extSum (pre ++ { b with allocated := true } :: post) =
            extSum pre + b.extent + extSum post := by
          rw [extSum_append, extSum_cons]
          simp only []
          ring
        omega
  · refine regionsSeparate_of_pos _ ?_
    by_cases hsplit : align8 s + prefixSize + suffixSize + 8 ≤ usableSpace b
    · rw [if_pos hsplit]
      unfold usableSpace at hsplit
      intro c hc
      simp only [List.mem_append, List.mem_cons] at hc
      rcases hc with hc | hc | hc | hc
      · exact good_pos c (hpregood c hc)
      · subst hc; simp only []; omega
      · subst hc; simp only []; omega
      · exact good_pos c (hpostgood c hc)
    · rw [if_neg hsplit]
      intro c hc
      simp only [List.mem_append, List.mem_cons] at hc
      rcases hc with hc | hc | hc
      · exact good_pos c (hpregood c hc)
      · subst hc
        exact good_pos b hbgood
      · exact good_pos c (hpostgood c hc)
  · by_cases hsplit : align8 s + prefixSize + suffixSize + 8 ≤ usableSpace b
    · rw [if_pos hsplit]
      refine ⟨⟨prefixSize + suffixSize + align8 s, true⟩, _, rfl, rfl, ?_⟩
      unfold usableSpace
      simp only []
      omega
    · rw [if_neg hsplit]
      exact ⟨{ b with allocated := true }, post, rfl, rfl, hbs⟩

/-- Claim C1 (confirmed).  Every successful firstFitAllocRegion or
bestFitAllocRegion run satisfies AllocPost: the returned region's block has
usable space at least the request, the region offset is 8-aligned, the
chain remains a disjoint sound partition (so the region overlaps no other
allocated region), and the found block is split -- a free sliver carved
from its tail and the head re-stamped to exactly the aligned request --
exactly when its usable space is at least
align8(s) + prefixSize + suffixSize + 8. -/
theorem alloc_spec (st : ArenaState) (s : Int) (hv : ValidArena st.blocks) (hs0 : 0 ≤ s) :
    (∀ f, findFirstFit st s = some f → AllocPost st s f (firstFitAllocRegion st s)) ∧
    (∀ f, findBestFit st s = some f → AllocPost st s f (bestFitAllocRegion st s)) := by
  have hne : st.blocks ≠ [] := hv.1
  have hinit := initArena_nonempty st hne
  have hposall : ∀ c ∈ st.blocks, 0 < c.extent := fun c hc => good_pos c (hv.2.1 c hc)
  constructor
  · intro f hfind
    have hax : findFirstFitAux s st.blocks 0 = some f := by
      unfold findFirstFit at hfind
      cases hcase : findFirstFitAux s st.blocks 0 with
      | some o =>
        rw [hcase] at hfind
        simp only [Option.some.injEq] at hfind
        rw [hfind]
      | none =>
        rw [hcase] at hfind
        exact absurd hfind (by simp [growArena])
    obtain ⟨pre, b, post, hdec, hoff, hbf, hbs, _⟩ := findFirstFitAux_found s st.blocks 0 f hax
    rw [zero_add] at hoff
    subst hoff
    unfold firstFitAllocRegion
    rw [hinit]
    show AllocPost st s (extSum pre) (allocFromFind st (align8 s) (findFirstFit st s))
    rw [hfind]
    have hrun := allocFromFind_found st s pre b post hdec
      (fun c hc => hposall c (by rw [hdec]; simp [hc])) hs0
      (hv.2.1 b (by rw [hdec]; simp)).1
    exact allocPost_assemble st s pre b post hv hs0 hdec hbf hbs _ hrun
  · intro f hfind
    have hB := valid_block_bounds st.blocks hv
    have hax : findBestFitAux s st.blocks 0 INT_MAX none = some f := by
      unfold findBestFit at hfind
      cases hcase : findBestFitAux s st.blocks 0 INT_MAX none with
      | some o =>
        rw [hcase] at hfind
        simp only [Option.some.injEq] at hfind
        rw [hfind]
      | none =>
        rw [hcase] at hfind
        exact absurd hfind (by simp [growArena])
    rcases findBestFitAux_found s st.blocks 0 INT_MAX none f hB hs0 hax with
      ⟨pre, b, post, hdec, hoff, hbf, hbs⟩ | hnone
    · rw [zero_add] at hoff
      subst hoff
      unfold bestFitAllocRegion
      rw [hinit]
      show AllocPost st s (extSum pre) (allocFromFind st (align8 s) (findBestFit st s))
      rw [hfind]
      have hrun := allocFromFind_found st s pre b post hdec
        (fun c hc => hposall c (by rw [hdec]; simp [hc])) hs0
        (hv.2.1 b (by rw [hdec]; simp)).1
      exact allocPost_assemble st s pre b post hv hs0 hdec hbf hbs _ hrun
    · simp at hnone

/-- Witness for alloc_spec: both allocators on the fresh arena with a
request of 256 find the single free block at offset 0. -/
theorem alloc_spec_witness :
    ValidArena [Block.mk 1048576 false] ∧
    AllocPost ⟨[⟨1048576, false⟩], memZero⟩ 256 0
      (firstFitAllocRegion ⟨[⟨1048576, false⟩], memZero⟩ 256) ∧
    AllocPost ⟨[⟨1048576, false⟩], memZero⟩ 256 0
      (bestFitAllocRegion ⟨[⟨1048576, false⟩], memZero⟩ 256) := by
  refine ⟨by decide, ?_, ?_⟩
  · exact (alloc_spec ⟨[⟨1048576, false⟩], memZero⟩ 256 (by decide) (by decide)).1 0 (by decide)
  · exact (alloc_spec ⟨[⟨1048576, false⟩], memZero⟩ 256 (by decide) (by decide)).2 0 (by decide)

theorem copyMem_in (m : Int → Int) (src dst cnt j : Int) (h0 : 0 ≤ j) (h1 : j < cnt) :
    copyMem m src dst cnt (dst + j) = m (src + j) := by
  unfold copyMem
  rw [if_pos (by omega)]
  congr 1
  ring

theorem coalesceShape_frozen (pre : List Block) (b : Block) (post : List Block)
    (hL : ∀ x ∈ pre.getLast?, x.allocated = true)
    (hR : ∀ y ∈ post.head?, y.allocated = true) :
    coalesceShape pre b post = pre ++ ⟨b.extent, false⟩ :: post := by
  unfold coalesceShape mergePrevShape mergeNextShape
  have h1 : (match pre.getLast? with
      | some a => if a.allocated then (pre, b.extent) else (pre.dropLast, a.extent + b.extent)
      | none => (pre, b.extent)) = (pre, b.extent) := by
    cases hg : pre.getLast? with
    | none => rfl
    | some x =>
      have := hL x (by simp [hg])
      simp [this]
  rw [h1]
  cases post with
  | nil => rfl
  | cons c post2 =>
    have := hR c (by simp)
    simp [this]

theorem freeRegion_frozen (mm : Int → Int) (b : Block) (bs1 preN postN : List Block)
    (hshape : bs1 = preN ++ b :: postN)
    (hgood1 : ∀ c ∈ bs1, GoodBlock c)
    (hL : ∀ x ∈ preN.getLast?, x.allocated = true)
    (hR : ∀ y ∈ postN.head?, y.allocated = true) :
    freeRegion ⟨bs1, mm⟩ (some (extSum preN + prefixSize)) =
      .ok ⟨preN ++ ⟨b.extent, false⟩ :: postN, mm⟩ := by
  have hposN : ∀ c ∈ preN, 0 < c.extent :=
    fun c hc => good_pos c (hgood1 c (by rw [hshape]; simp [hc]))
  unfold freeRegion
  simp only []
  rw [show extSum preN + prefixSize - prefixSize = extSum preN from by ring]
  rw [setAllocated_at ⟨bs1, mm⟩ (extSum preN) false preN b postN hshape hposN rfl, bindOk]
  have hgood2 : ∀ c ∈ preN ++ { b with allocated := false } :: postN, GoodBlock c := by
    intro c hc
    simp only [List.mem_append, List.mem_cons] at hc
    rcases hc with hc | hc | hc
    · exact hgood1 c (by rw [hshape]; simp [hc])
    · subst hc
      have := hgood1 b (by rw [hshape]; simp)
      exact ⟨this.1, this.2⟩
    · exact hgood1 c (by rw [hshape]; simp [hc])
  obtain ⟨v, hco⟩ := coalesce_free ⟨preN ++ { b with allocated := false } :: postN, mm⟩
    preN { b with allocated := false } postN rfl (by simpa using hgood2) rfl
  rw [hco, bindOk]
  rw [coalesceShape_frozen preN { b with allocated := false } postN hL hR]

theorem alloc_shape_good (preF : List Block) (bF : Block) (postF : List Block) (s : Int)
    (hgood : ∀ c ∈ preF ++ bF :: postF, GoodBlock c) (hs : 0 ≤ s) :
    ∀ c ∈ (if align8 s + prefixSize + suffixSize + 8 ≤ usableSpace bF then
        preF ++ ⟨prefixSize + suffixSize + align8 s, true⟩ ::
          ⟨bF.extent - (prefixSize + suffixSize + align8 s), false⟩ :: postF
      else preF ++ { bF with allocated := true } :: postF), GoodBlock c := by
  have hbg := hgood bF (by simp)
  have has := align8_nonneg s hs
  have hasd := align8_dvd s
  have hP : prefixSize = 16 := rfl
  have hS : suffixSize = 8 := rfl
  by_cases hsplit : align8 s + prefixSize + suffixSize + 8 ≤ usableSpace bF
  · rw [if_pos hsplit]
    unfold usableSpace at hsplit
    intro c hc
    simp only [List.mem_append, List.mem_cons] at hc
    rcases hc with hc | hc | hc | hc
    · exact hgood c (by simp [hc])
    · subst hc
      refine ⟨?_, ?_⟩
      · show prefixSize + suffixSize ≤ prefixSize + suffixSize + align8 s
        omega
      · show (8 : Int) ∣ prefixSize + suffixSize + align8 s
        exact dvd_add (by decide : (8 : Int) ∣ prefixSize + suffixSize) hasd
    · subst hc
      refine ⟨?_, ?_⟩
      · show prefixSize + suffixSize ≤ bF.extent - (prefixSize + suffixSize + align8 s)
        omega
      · show (8 : Int) ∣ bF.extent - (prefixSize + suffixSize + align8 s)
        exact dvd_sub hbg.2 (dvd_add (by decide : (8 : Int) ∣ prefixSize + suffixSize) hasd)
    · exact hgood c (by simp [hc])
  · rw [if_neg hsplit]
    intro c hc
    simp only [List.mem_append, List.mem_cons] at hc
    rcases hc with hc | hc | hc
    · exact hgood c (by simp [hc])
    · subst hc
      exact ⟨hbg.1, hbg.2⟩
    · exact hgood c (by simp [hc])

theorem resizeFallback_ok (alloc : ArenaState → Int → Except CErr (Option Int × ArenaState))
    (st st1 st3 : ArenaState) (rOff oldSize newSize nReg : Int)
    (halloc : alloc st newSize = .ok (some nReg, st1))
    (hfree : freeRegion { st1 with mem := copyMem st1.mem rOff nReg oldSize } (some rOff) =
      .ok st3) :
    resizeFallback alloc st (some rOff) oldSize newSize = .ok (some nReg, st3) := by
  unfold resizeFallback
  rw [halloc, bindOk]
  simp only []
  rw [hfree, bindOk]

/-- What the allocate-copy-free fallback tail of the resize variants
guarantees: the returned region is the one the search found (offset fV +
prefixSize), the payload memory is the old memory overwritten with the old
region's first oldUsable bytes at the new region (the lesser of the old and
new usable sizes, since the fallback only runs when oldUsable < newSize ≤
new usable), and the old region's block is back in the chain marked free at
its old offset. -/
def FallbackPost (st : ArenaState) (rOff fV oldUsable : Int)
    (out : Except CErr (Option Int × ArenaState)) : Prop :=
  ∃ st3, out = .ok (some (fV + prefixSize), st3) ∧
    st3.mem = copyMem st.mem rOff (fV + prefixSize) oldUsable ∧
    (∀ j, 0 ≤ j → j < oldUsable → st3.mem (fV + prefixSize + j) = st.mem (rOff + j)) ∧
    (∃ preN postN,
      st3.blocks = preN ++ (⟨oldUsable + prefixSize + suffixSize, false⟩ : Block) :: postN ∧
      extSum preN + prefixSize = rOff)

theorem fallback_post (st : ArenaState) (rOff newSize : Int) (pre2 : List Block) (a b c : Block)
    (post2 : List Block) (preF : List Block) (bF : Block) (postF : List Block)
    (hv : ValidArena st.blocks)
    (hdec : st.blocks = (pre2 ++ [a]) ++ b :: c :: post2)
    (hoff : rOff = extSum (pre2 ++ [a]) + prefixSize)
    (ha : a.allocated = true) (hb : b.allocated = true) (hc : c.allocated = true)
    (hn0 : 0 ≤ newSize)
    (hFdec : st.blocks = preF ++ bF :: postF) (hbFf : bF.allocated = false)
    (alloc : ArenaState → Int → Except CErr (Option Int × ArenaState))
    (hallocEq : alloc st newSize = .ok (some (extSum preF + prefixSize),
      ⟨(if align8 newSize + prefixSize + suffixSize + 8 ≤ usableSpace bF then
          preF ++ ⟨prefixSize + suffixSize + align8 newSize, true⟩ ::
            ⟨bF.extent - (prefixSize + suffixSize + align8 newSize), false⟩ :: postF
        else preF ++ { bF with allocated := true } :: postF), st.mem⟩)) :
    FallbackPost st rOff (extSum preF) (usableSpace b)
      (resizeFallback alloc st (some rOff) (cInt (usableSpace b)) newSize) := by
  have hgood := hv.2.1
  have hBb := valid_block_bounds st.blocks hv b (by rw [hdec]; simp)
  have hIM : INT_MAX = 2 ^ 31 - 1 := rfl
  have hci : cInt (usableSpace b) = usableSpace b := cInt_id _ (by omega) (by omega)
  have hgoodF : ∀ d ∈ preF ++ bF :: postF, GoodBlock d := by rw [← hFdec]; exact hgood
  have hgood1 := alloc_shape_good preF bF postF newSize hgoodF hn0
  have hbe : (⟨b.extent, false⟩ : Block) =
      ⟨usableSpace b + prefixSize + suffixSize, false⟩ := by
    unfold usableSpace
    congr 1
    ring
  -- the split pieces of the found block, uniformly
  obtain ⟨pieces, hpieces, hpsum, hphead⟩ :
      ∃ pieces, (if align8 newSize + prefixSize + suffixSize + 8 ≤ usableSpace bF then
          preF ++ ⟨prefixSize + suffixSize + align8 newSize, true⟩ ::
            ⟨bF.extent - (prefixSize + suffixSize + align8 newSize), false⟩ :: postF
        else preF ++ { bF with allocated := true } :: postF) = preF ++ (pieces ++ postF) ∧
        extSum pieces = bF.extent ∧ pieces ≠ [] := by
    by_cases hsplit : align8 newSize + prefixSize + suffixSize + 8 ≤ usableSpace bF
    · refine ⟨[⟨prefixSize + suffixSize + align8 newSize, true⟩,
        ⟨bF.extent - (prefixSize + suffixSize + align8 newSize), false⟩], ?_, ?_, by simp⟩
      · rw [if_pos hsplit]; simp
      · rw [extSum_cons, extSum_cons, extSum_nil]
        simp only []
        ring
    · refine ⟨[{ bF with allocated := true }], ?_, ?_, by simp⟩
      · rw [if_neg hsplit]; simp
      · rw [extSum_cons, extSum_nil]
        simp only []
        ring
  rcases two_decomp (pre2 ++ [a]) st.blocks b (c :: post2) preF bF postF hdec hFdec with
    hE | ⟨mid, hm⟩ | ⟨mid, hm⟩
  · rw [hE.2.1] at hb
    rw [hb] at hbFf
    cases hbFf
  · -- the found block lies after b: preF = (pre2 ++ [a]) ++ b :: mid
    have hpostF : c :: post2 = mid ++ bF :: postF := by
      rw [hm] at hFdec
      rw [hdec] at hFdec
      simpa using hFdec
    cases mid with
    | nil =>
      simp only [List.nil_append] at hpostF
      injection hpostF with h1 h2
      rw [← h1] at hbFf
      rw [hc] at hbFf
      cases hbFf
    | cons c' mid' =>
      injection hpostF with h1 h2
      subst h1
      -- result chain around the old block
      have hshape : preF ++ (pieces ++ postF) =
          (pre2 ++ [a]) ++ b :: (c :: (mid' ++ pieces ++ postF)) := by
        rw [hm]
        simp
      set preN : List Block := pre2 ++ [a] with hpreN
      set postN : List Block := c :: (mid' ++ pieces ++ postF) with hpostN
      have hfrozen := freeRegion_frozen (copyMem st.mem rOff (extSum preF + prefixSize)
          (usableSpace b)) b (preF ++ (pieces ++ postF)) preN postN hshape
        (by rw [hpieces] at hgood1; exact hgood1)
        (by intro x hx; simp only [hpreN, List.getLast?_concat, Option.mem_def,
              Option.some.injEq] at hx; rw [← hx]; exact ha)
        (by intro y hy; simp only [hpostN, List.head?_cons, Option.mem_def,
              Option.some.injEq] at hy; rw [← hy]; exact hc)
      refine ⟨⟨preN ++ ⟨b.extent, false⟩ :: postN, copyMem st.mem rOff
        (extSum preF + prefixSize) (usableSpace b)⟩, ?_, rfl, ?_, ?_⟩
      · rw [hci]
        refine resizeFallback_ok alloc st
          ⟨preF ++ (pieces ++ postF), st.mem⟩ _ rOff (usableSpace b) newSize
          (extSum preF + prefixSize) (by rw [hallocEq, hpieces]) ?_
        show freeRegion ⟨preF ++ (pieces ++ postF), copyMem st.mem rOff
          (extSum preF + prefixSize) (usableSpace b)⟩ (some rOff) = _
        have hro : extSum preN + prefixSize = rOff := by rw [hpreN, hoff]
        rw [hro] at hfrozen
        exact hfrozen
      · intro j hj0 hj1
        exact copyMem_in st.mem rOff (extSum preF + prefixSize) (usableSpace b) j hj0 hj1
      · refine ⟨preN, postN, by rw [hbe], by omega⟩
  · -- the found block lies before b: pre2 ++ [a] = preF ++ bF :: mid
    have hpostF : postF = mid ++ b :: c :: post2 := by
      rw [hm] at hdec
      rw [hFdec] at hdec
      simpa using hdec
    have hmidne : mid ≠ [] := by
      intro hnil
      subst hnil
      have : (pre2 ++ [a]).getLast? = some bF := by rw [hm]; simp
      rw [List.getLast?_concat] at this
      injection this with h1
      rw [h1] at ha
      rw [ha] at hbFf
      cases hbFf
    obtain ⟨mid0, am, hmid⟩ : ∃ mid0 am, mid = mid0 ++ [am] := by
      rcases List.eq_nil_or_concat mid with h | ⟨m0, am, h⟩
      · exact absurd h hmidne
      · rw [List.concat_eq_append] at h
        exact ⟨m0, am, h⟩
    have ham : am = a := by
      have h1 : (pre2 ++ [a]).getLast? = some a := List.getLast?_concat pre2
      rw [hm, hmid] at h1
      rw [show preF ++ bF :: (mid0 ++ [am]) = (preF ++ bF :: mid0) ++ [am] from by simp
        ] at h1
      rw [List.getLast?_concat] at h1
      exact Option.some.inj h1
    rw [ham] at hmid
    have hshape : preF ++ (pieces ++ postF) =
        (preF ++ pieces ++ mid) ++ b :: (c :: post2) := by
      rw [hpostF]
      simp
    set preN : List Block := preF ++ pieces ++ mid with hpreN
    set postN : List Block := c :: post2 with hpostN
    have hextN : extSum preN = extSum (pre2 ++ [a]) := by
      rw [hpreN, hm, hmid]
      simp only [extSum_append, extSum_cons, extSum_nil, hpsum]
      ring
    have hfrozen := freeRegion_frozen (copyMem st.mem rOff (extSum preF + prefixSize)
        (usableSpace b)) b (preF ++ (pieces ++ postF)) preN postN hshape
      (by rw [hpieces] at hgood1; exact hgood1)
      (by
        intro x hx
        rw [hpreN, hmid] at hx
        rw [show preF ++ pieces ++ (mid0 ++ [a]) = (preF ++ pieces ++ mid0) ++ [a] from
          by simp] at hx
        rw [List.getLast?_concat] at hx
        simp only [Option.mem_def, Option.some.injEq] at hx
        rw [← hx]
        exact ha)
      (by intro y hy; simp only [hpostN, List.head?_cons, Option.mem_def,
            Option.some.injEq] at hy; rw [← hy]; exact hc)
    refine ⟨⟨preN ++ ⟨b.extent, false⟩ :: postN, copyMem st.mem rOff
      (extSum preF + prefixSize) (usableSpace b)⟩, ?_, rfl, ?_, ?_⟩
    · rw [hci]
      refine resizeFallback_ok alloc st
        ⟨preF ++ (pieces ++ postF), st.mem⟩ _ rOff (usableSpace b) newSize
        (extSum preF + prefixSize) (by rw [hallocEq, hpieces]) ?_
      show freeRegion ⟨preF ++ (pieces ++ postF), copyMem st.mem rOff
        (extSum preF + prefixSize) (usableSpace b)⟩ (some rOff) = _
      have hro : extSum preN + prefixSize = rOff := by rw [hextN, hoff]
      rw [hro] at hfrozen
      exact hfrozen
    · intro j hj0 hj1
      exact copyMem_in st.mem rOff (extSum preF + prefixSize) (usableSpace b) j hj0 hj1
    · refine ⟨preN, postN, by rw [hbe], by omega⟩

/-- Claim C8 (refuted as stated): the copy-based variant oldResizeRegion
does NOT allocate its fresh region with best-fit.  On an arena with free
blocks of usable sizes 56 (offset 0) and 24 (offset 112), resizing the
allocated region at 176 up to 16 bytes returns the region carved from the
block at offset 0 -- the first-fit pick -- while best-fit for the same
request selects the block at offset 112, so a best-fit allocation would
have returned region 128, not 16. -/
theorem oldResize_firstFit_cex :
    runBlocks (oldResizeRegion
        ⟨[⟨80, false⟩, ⟨32, true⟩, ⟨48, false⟩, ⟨32, true⟩, ⟨1048384, true⟩], memZero⟩
        (some 176) 16) =
      .ok (some 16, [⟨40, true⟩, ⟨40, false⟩, ⟨32, true⟩, ⟨80, false⟩, ⟨1048384, true⟩]) ∧
    findFirstFit
        ⟨[⟨80, false⟩, ⟨32, true⟩, ⟨48, false⟩, ⟨32, true⟩, ⟨1048384, true⟩], memZero⟩ 16 =
      some 0 ∧
    findBestFit
        ⟨[⟨80, false⟩, ⟨32, true⟩, ⟨48, false⟩, ⟨32, true⟩, ⟨1048384, true⟩], memZero⟩ 16 =
      some 112 ∧
    (16 : Int) ≠ 112 + prefixSize := by
  refine ⟨by decide, by decide, by decide, by decide⟩

/-- Claim C8 (corrected).  When the old block is allocated with allocated
neighbors on both sides and its usable space is below newSize, no in-place
strategy applies and every resize variant runs the shared fallback tail --
but oldResizeRegion allocates with firstFitAllocRegion while resizeRegion
and resizeRegionExtra allocate with bestFitAllocRegion.  Whenever the
respective search finds a block, the fallback satisfies FallbackPost: the
returned region is the freshly allocated one, the old region's usable bytes
(the lesser size, since oldUsable < newSize ≤ new usable) are copied to it,
and the old region's block is freed in place. -/
theorem resize_fallback_spec (st : ArenaState) (rOff newSize : Int) (pre2 : List Block)
    (a b c : Block) (post2 : List Block)
    (hv : ValidArena st.blocks)
    (hdec : st.blocks = (pre2 ++ [a]) ++ b :: c :: post2)
    (hoff : rOff = extSum (pre2 ++ [a]) + prefixSize)
    (ha : a.allocated = true) (hb : b.allocated = true) (hc : c.allocated = true)
    (hlt : usableSpace b < newSize) :
    (oldResizeRegion st (some rOff) newSize =
       resizeFallback firstFitAllocRegion st (some rOff) (cInt (usableSpace b)) newSize ∧
     resizeRegion st (some rOff) newSize =
       resizeFallback bestFitAllocRegion st (some rOff) (cInt (usableSpace b)) newSize ∧
     resizeRegionExtra st (some rOff) newSize =
       resizeFallback bestFitAllocRegion st (some rOff) (cInt (usableSpace b)) newSize) ∧
    (∀ fF, findFirstFit st newSize = some fF →
      FallbackPost st rOff fF (usableSpace b) (oldResizeRegion st (some rOff) newSize)) ∧
    (∀ fB, findBestFit st newSize = some fB →
      FallbackPost st rOff fB (usableSpace b) (resizeRegion st (some rOff) newSize) ∧
      FallbackPost st rOff fB (usableSpace b) (resizeRegionExtra st (some rOff) newSize)) := by
  have hgood := hv.2.1
  have hpos : ∀ d ∈ st.blocks, 0 < d.extent := fun d hd => good_pos d (hgood d hd)
  have hposPre : ∀ d ∈ pre2 ++ [a], 0 < d.extent :=
    fun d hd => hpos d (by rw [hdec]; exact List.mem_append.mpr (.inl hd))
  have hO := resizeOldSize_at st rOff (pre2 ++ [a]) b (c :: post2) hdec hposPre hoff
  have hBb := valid_block_bounds st.blocks hv b (by rw [hdec]; simp)
  have hIM : INT_MAX = 2 ^ 31 - 1 := rfl
  have hci : cInt (usableSpace b) = usableSpace b := cInt_id _ (by omega) (by omega)
  have hcs : cSize (usableSpace b) = usableSpace b := cSize_id _ (by omega) (by omega)
  have hcond : ¬ (newSize ≤ cSize (cInt (usableSpace b))) := by rw [hci, hcs]; omega
  have hn0 : 0 ≤ newSize := by omega
  have h1 : rOff - prefixSize = extSum (pre2 ++ [a]) := by omega
  have hP : prefixSize = 16 := rfl
  have hS : suffixSize = 8 := rfl
  have hbpos : 0 < b.extent := hpos b (by rw [hdec]; simp)
  have hcpos : 0 < c.extent := hpos c (by rw [hdec]; simp)
  have hpostn : 0 ≤ extSum post2 := by
    refine extSum_nonneg post2 (fun d hd => hpos d ?_)
    rw [hdec]; simp [hd]
  have hnext := getNextBlock_mid st (pre2 ++ [a]) b c post2 hdec hposPre hcpos hpostn
  have hseekb : seek st.blocks (extSum (pre2 ++ [a])) = some (pre2 ++ [a], b, c :: post2) := by
    rw [hdec]; exact seek_pre (pre2 ++ [a]) b (c :: post2) hposPre
  have hseekc : seek st.blocks (extSum (pre2 ++ [a]) + b.extent) =
      some ((pre2 ++ [a]) ++ [b], c, post2) := by
    rw [hdec]
    have h2 := seek_pre ((pre2 ++ [a]) ++ [b]) c post2 (by
      intro d hd
      rcases List.mem_append.mp hd with h | h
      · exact hposPre d h
      · simp at h; subst h; exact hbpos)
    rw [extSum_append, extSum_cons, extSum_nil] at h2
    simpa using h2
  have hcb : blockAtE st (extSum (pre2 ++ [a])) = .ok b := by
    unfold blockAtE seekE
    simp only [hseekb]
    rfl
  have hcat : blockAtE st (extSum (pre2 ++ [a]) + b.extent) = .ok c := by
    unfold blockAtE seekE
    simp only [hseekc]
    rfl
  have husN : computeUsableSpaceE st (some (extSum (pre2 ++ [a]) + b.extent)) =
      .ok (usableSpace c) := by
    unfold computeUsableSpaceE blockAtE seekE
    simp only [hseekc]
    rfl
  have route1 : oldResizeRegion st (some rOff) newSize =
      resizeFallback firstFitAllocRegion st (some rOff) (cInt (usableSpace b)) newSize := by
    unfold oldResizeRegion
    rw [hO, bindOk, if_neg hcond]
  have route2 : resizeRegion st (some rOff) newSize =
      resizeFallback bestFitAllocRegion st (some rOff) (cInt (usableSpace b)) newSize := by
    unfold resizeRegion
    rw [hO, bindOk, if_neg hcond]
    simp only [h1, hnext, bindOk, husN, hcb, hcat, hc, Bool.not_true, pure_eq_ok, bindOk]
    rw [if_neg (by decide : ¬ (false = true))]
  have hdec2 : st.blocks = pre2 ++ a :: b :: c :: post2 := by
    rw [hdec]; simp
  have hpos2 : ∀ d ∈ pre2, 0 < d.extent :=
    fun d hd => hposPre d (List.mem_append.mpr (.inl hd))
  have hapos : 0 < a.extent := hposPre a (by simp)
  have hext : extSum (pre2 ++ [a]) = extSum pre2 + a.extent := by
    rw [extSum_append, extSum_cons, extSum_nil]; ring
  have hpre2n : 0 ≤ extSum pre2 :=
    extSum_nonneg pre2 (fun d hd => hpos2 d hd)
  have hga := (hgood a (by rw [hdec2]; simp)).1
  have hprev := getPrevBlock_at st pre2 a b (c :: post2) hdec2 hpos2 hapos (by omega)
  have hseeka : seek st.blocks (extSum pre2) = some (pre2, a, b :: c :: post2) := by
    rw [hdec2]; exact seek_pre pre2 a (b :: c :: post2) hpos2
  have hcaa : blockAtE st (extSum pre2) = .ok a := by
    unfold blockAtE seekE
    simp only [hseeka]
    rfl
  have husP : computeUsableSpaceE st (some (extSum pre2)) = .ok (usableSpace a) := by
    unfold computeUsableSpaceE blockAtE seekE
    simp only [hseeka]
    rfl
  have route3 : resizeRegionExtra st (some rOff) newSize =
      resizeFallback bestFitAllocRegion st (some rOff) (cInt (usableSpace b)) newSize := by
    unfold resizeRegionExtra
    rw [hO, bindOk, if_neg hcond]
    simp only [h1, hnext, bindOk, husN, hcb, hcat, hc, Bool.not_true, pure_eq_ok, bindOk]
    unfold rrxAfterNext
    simp only [h1, hext, hprev, bindOk, husP, hcaa, ha, Bool.not_true, pure_eq_ok, bindOk]
  refine ⟨⟨route1, route2, route3⟩, ?_, ?_⟩
  · intro fF hfind
    have hax : findFirstFitAux newSize st.blocks 0 = some fF := by
      unfold findFirstFit at hfind
      cases hcase : findFirstFitAux newSize st.blocks 0 with
      | some o =>
        rw [hcase] at hfind
        simp only [Option.some.injEq] at hfind
        rw [hfind]
      | none =>
        rw [hcase] at hfind
        exact absurd hfind (by simp [growArena])
    obtain ⟨preF, bF, postF, hFdec, hFoff, hbFf, hbFs, _⟩ :=
      findFirstFitAux_found newSize st.blocks 0 fF hax
    rw [zero_add] at hFoff
    subst hFoff
    have hfirst : firstFitAllocRegion st newSize =
        allocFromFind st (align8 newSize) (some (extSum preF)) := by
      unfold firstFitAllocRegion
      rw [initArena_nonempty st hv.1]
      show allocFromFind st (align8 newSize) (findFirstFit st newSize) = _
      rw [hfind]
    rw [route1]
    refine fallback_post st rOff newSize pre2 a b c post2 preF bF postF hv hdec hoff
      ha hb hc hn0 hFdec hbFf firstFitAllocRegion ?_
    rw [hfirst]
    exact allocFromFind_found st newSize preF bF postF hFdec
      (fun d hd => hpos d (by rw [hFdec]; simp [hd])) hn0
      (hgood bF (by rw [hFdec]; simp)).1
  · intro fB hfind
    have hB := valid_block_bounds st.blocks hv
    have hax : findBestFitAux newSize st.blocks 0 INT_MAX none = some fB := by
      unfold findBestFit at hfind
      cases hcase : findBestFitAux newSize st.blocks 0 INT_MAX none with
      | some o =>
        rw [hcase] at hfind
        simp only [Option.some.injEq] at hfind
        rw [hfind]
      | none =>
        rw [hcase] at hfind
        exact absurd hfind (by simp [growArena])
    rcases findBestFitAux_found newSize st.blocks 0 INT_MAX none fB hB hn0 hax with
      ⟨preF, bF, postF, hFdec, hFoff, hbFf, hbFs⟩ | hnone
    · rw [zero_add] at hFoff
      subst hFoff
      have hbest : bestFitAllocRegion st newSize =
          allocFromFind st (align8 newSize) (some (extSum preF)) := by
        unfold bestFitAllocRegion
        rw [initArena_nonempty st hv.1]
        show allocFromFind st (align8 newSize) (findBestFit st newSize) = _
        rw [hfind]
      have hrun := allocFromFind_found st newSize preF bF postF hFdec
        (fun d hd => hpos d (by rw [hFdec]; simp [hd])) hn0
        (hgood bF (by rw [hFdec]; simp)).1
      constructor
      · rw [route2]
        refine fallback_post st rOff newSize pre2 a b c post2 preF bF postF hv hdec hoff
          ha hb hc hn0 hFdec hbFf bestFitAllocRegion ?_
        rw [hbest]
        exact hrun
      · rw [route3]
        refine fallback_post st rOff newSize pre2 a b c post2 preF bF postF hv hdec hoff
          ha hb hc hn0 hFdec hbFf bestFitAllocRegion ?_
        rw [hbest]
        exact hrun
    · simp at hnone

/-- Witness for resize_fallback_spec: a five-block arena whose middle
allocated block (region 128, usable 8) is resized to 16; both searches find
the free head block at offset 0. -/
theorem resize_fallback_spec_witness :
    FallbackPost ⟨[⟨80, false⟩, ⟨32, true⟩, ⟨32, true⟩, ⟨32, true⟩, ⟨1048400, false⟩], memZero⟩
      128 0 (usableSpace ⟨32, true⟩)
      (oldResizeRegion
        ⟨[⟨80, false⟩, ⟨32, true⟩, ⟨32, true⟩, ⟨32, true⟩, ⟨1048400, false⟩], memZero⟩
        (some 128) 16) ∧
    FallbackPost ⟨[⟨80, false⟩, ⟨32, true⟩, ⟨32, true⟩, ⟨32, true⟩, ⟨1048400, false⟩], memZero⟩
      128 0 (usableSpace ⟨32, true⟩)
      (resizeRegion
        ⟨[⟨80, false⟩, ⟨32, true⟩, ⟨32, true⟩, ⟨32, true⟩, ⟨1048400, false⟩], memZero⟩
        (some 128) 16) ∧
    FallbackPost ⟨[⟨80, false⟩, ⟨32, true⟩, ⟨32, true⟩, ⟨32, true⟩, ⟨1048400, false⟩], memZero⟩
      128 0 (usableSpace ⟨32, true⟩)
      (resizeRegionExtra
        ⟨[⟨80, false⟩, ⟨32, true⟩, ⟨32, true⟩, ⟨32, true⟩, ⟨1048400, false⟩], memZero⟩
        (some 128) 16) := by
  have h := resize_fallback_spec
    ⟨[⟨80, false⟩, ⟨32, true⟩, ⟨32, true⟩, ⟨32, true⟩, ⟨1048400, false⟩], memZero⟩
    128 16 [⟨80, false⟩] ⟨32, true⟩ ⟨32, true⟩ ⟨32, true⟩ [⟨1048400, false⟩]
    (by decide) rfl (by decide) rfl rfl rfl (by decide)
  exact ⟨h.2.1 0 (by decide), (h.2.2 0 (by decide)).1, (h.2.2 0 (by decide)).2⟩

/-- The tail shared by both three-way-merge arms: mark the block free,
coalesce it into its free predecessor and free successor, mark the merged
block allocated, return its region.  The merged block spans all three
extents and starts where the predecessor started. -/
theorem freeMergeBoth (mm : Int → Int) (preG : List Block) (p q r : Block) (postG : List Block)
    (hgood : ∀ d ∈ preG ++ p :: q :: r :: postG, GoodBlock d)
    (hpf : p.allocated = false) (hrf : r.allocated = false) :
    (do
      let st1 ← setAllocated ⟨preG ++ p :: q :: r :: postG, mm⟩ (extSum preG + p.extent) false
      let rr ← coalesce st1 (extSum preG + p.extent)
      let st2 ← setAllocated rr.2 rr.1 true
      (Except.ok (some (rr.1 + prefixSize), st2) : Except CErr (Option Int × ArenaState))) =
    .ok (some (extSum preG + prefixSize),
      ⟨preG ++ ⟨p.extent + q.extent + r.extent, true⟩ :: postG, mm⟩) := by
  have hP : prefixSize = 16 := rfl
  have hS : suffixSize = 8 := rfl
  have hposAll : ∀ d ∈ preG ++ p :: q :: r :: postG, 0 < d.extent :=
    fun d hd => good_pos d (hgood d hd)
  have hpre : ∀ d ∈ preG, 0 < d.extent := fun d hd => hposAll d (by simp [hd])
  have hprenn : 0 ≤ extSum preG := extSum_nonneg preG hpre
  have hgp := (hgood p (by simp)).1
  have hgq := (hgood q (by simp)).1
  have hgr := (hgood r (by simp)).1
  have hpostn : 0 ≤ extSum postG :=
    extSum_nonneg postG (fun d hd => hposAll d (by simp [hd]))
  have hprepos : ∀ d ∈ preG ++ [p], 0 < d.extent := by
    intro d hd
    rcases List.mem_append.mp hd with h | h
    · exact hpre d h
    · simp at h; subst h; omega
  have hset1 := setAllocated_at ⟨preG ++ p :: q :: r :: postG, mm⟩
    (extSum preG + p.extent) false (preG ++ [p]) q (r :: postG) (by simp) hprepos
    (by rw [extSum_append, extSum_cons, extSum_nil]; ring)
  rw [hset1, bindOk]
  unfold coalesce
  have hco1 := coalescePrev_merge ⟨(preG ++ [p]) ++ Block.mk q.extent false :: r :: postG, mm⟩
    preG p (Block.mk q.extent false) (r :: postG) (by simp) hpre (by omega) (by omega)
    hpf rfl (by simp only []; omega)
  simp only [] at hco1
  rw [hco1, bindOk]
  simp only []
  have hnx := getNextBlock_mid ⟨preG ++ Block.mk (p.extent + q.extent) false :: r :: postG, mm⟩
    preG (Block.mk (p.extent + q.extent) false) r postG rfl hpre (by omega) hpostn
  simp only [] at hnx
  rw [hnx, bindOk]
  simp only []
  have hco2 := coalescePrev_merge ⟨preG ++ Block.mk (p.extent + q.extent) false :: r :: postG, mm⟩
    preG (Block.mk (p.extent + q.extent) false) r postG rfl hpre (by simp only []; omega)
    (by simp only []; omega) rfl hrf (by simp only []; omega)
  simp only [] at hco2
  rw [hco2, bindOk]
  simp only []
  have hset2 := setAllocated_at ⟨preG ++ Block.mk (p.extent + q.extent + r.extent) false :: postG, mm⟩
    (extSum preG) true preG (Block.mk (p.extent + q.extent + r.extent) false) postG rfl hpre rfl
  rw [hset2, bindOk]

theorem mergeBothTrimPrev_run (st : ArenaState) (newSize : Int) (pre1 : List Block)
    (a b c : Block) (post1 : List Block)
    (hdec : st.blocks = pre1 ++ a :: b :: c :: post1)
    (hgood : ∀ d ∈ st.blocks, GoodBlock d)
    (hsum3 : a.extent + b.extent + c.extent ≤ DEFAULT_BRKSIZE)
    (haf : a.allocated = false) (hcf : c.allocated = false)
    (h8n : (8 : Int) ∣ newSize)
    (hvia : usableSpace b + usableSpace c + 48 ≤ newSize)
    (hsum : newSize ≤ usableSpace a + usableSpace b + usableSpace c) :
    mergeBothTrimPrev st (extSum pre1 + a.extent) (extSum pre1)
      (usableSpace b) (usableSpace c) (usableSpace a) newSize =
      .ok (some (extSum pre1 + (a.extent + b.extent + c.extent - newSize - 24) + prefixSize),
        ⟨pre1 ++ ⟨a.extent + b.extent + c.extent - newSize - 24, false⟩ ::
          ⟨newSize + prefixSize + suffixSize, true⟩ :: post1, st.mem⟩) := by
  have hP : prefixSize = 16 := rfl
  have hS : suffixSize = 8 := rfl
  have hB : DEFAULT_BRKSIZE = 1048576 := rfl
  have hga := hgood a (by rw [hdec]; simp)
  have hgb := hgood b (by rw [hdec]; simp)
  have hgc := hgood c (by rw [hdec]; simp)
  have hga1 := hga.1
  have hga2 := hga.2
  have hgb1 := hgb.1
  have hgb2 := hgb.2
  have hgc1 := hgc.1
  have hgc2 := hgc.2
  have hUa : usableSpace a = a.extent - (prefixSize + suffixSize) := rfl
  have hUb : usableSpace b = b.extent - (prefixSize + suffixSize) := rfl
  have hUc : usableSpace c = c.extent - (prefixSize + suffixSize) := rfl
  have hpos : ∀ d ∈ st.blocks, 0 < d.extent := fun d hd => good_pos d (hgood d hd)
  have hpre : ∀ d ∈ pre1, 0 < d.extent := fun d hd => hpos d (by rw [hdec]; simp [hd])
  have hprenn : 0 ≤ extSum pre1 := extSum_nonneg pre1 hpre
  have hmiss : cInt (align8 (cSize
      (newSize - usableSpace b - usableSpace c - prefixSize - suffixSize))) =
      newSize - usableSpace b - usableSpace c - 24 := by
    rw [cSize_id _ (by omega) (by omega)]
    rw [align8_of_dvd _ (by omega)]
    rw [cInt_id _ (by omega) (by omega)]
    omega
  have haS : align8 (cInt (cSize
      (usableSpace a - (newSize - usableSpace b - usableSpace c - 24)))) =
      a.extent + b.extent + c.extent - newSize - 48 := by
    rw [cSize_id _ (by omega) (by omega)]
    rw [cInt_id _ (by omega) (by omega)]
    rw [align8_of_dvd _ (by omega)]
    omega
  have htest : cSize (a.extent + b.extent + c.extent - newSize - 48 + 8) ≤
      cSize (usableSpace a) := by
    rw [cSize_id _ (by omega) (by omega), cSize_id _ (by omega) (by omega)]
    omega
  have hk8 : a.extent + b.extent + c.extent - newSize - 48 + prefixSize + suffixSize =
      a.extent + b.extent + c.extent - newSize - 24 := by
    rw [hP, hS]; ring
  have hseekA : seek st.blocks (extSum pre1) = some (pre1, a, b :: c :: post1) := by
    rw [hdec]; exact seek_pre pre1 a (b :: c :: post1) hpre
  have hsplit : splitBlockAt st (extSum pre1) (a.extent + b.extent + c.extent - newSize - 24) =
      .ok ⟨pre1 ++ Block.mk (a.extent + b.extent + c.extent - newSize - 24) false ::
        Block.mk (a.extent - (a.extent + b.extent + c.extent - newSize - 24)) false ::
        b :: c :: post1, st.mem⟩ := by
    unfold splitBlockAt seekE makeFreeBlock
    simp only [hseekA, bindOk]
    rw [if_pos (by omega), bindOk, if_pos (by omega), bindOk]
  have hgoodG : ∀ d ∈ (pre1 ++ [Block.mk (a.extent + b.extent + c.extent - newSize - 24) false]) ++
      Block.mk (a.extent - (a.extent + b.extent + c.extent - newSize - 24)) false ::
      b :: c :: post1, GoodBlock d := by
    intro d hd
    simp only [List.mem_append, List.mem_cons] at hd
    rcases hd with (hd | hd | hd) | hd | hd | hd | hd
    · exact hgood d (by rw [hdec]; simp [hd])
    · subst hd; exact ⟨by simp only []; omega, by simp only []; omega⟩
    · cases hd
    · subst hd; exact ⟨by simp only []; omega, by simp only []; omega⟩
    · subst hd; exact hgb
    · subst hd; exact hgc
    · exact hgood d (by rw [hdec]; simp [hd])
  have hcore := freeMergeBoth st.mem
    (pre1 ++ [Block.mk (a.extent + b.extent + c.extent - newSize - 24) false])
    (Block.mk (a.extent - (a.extent + b.extent + c.extent - newSize - 24)) false)
    b c post1 hgoodG rfl hcf
  simp only [] at hcore
  unfold mergeBothTrimPrev
  simp only []
  rw [hmiss, haS]
  rw [if_pos htest]
  rw [hk8, hsplit, bindOk]
  rw [show extSum pre1 + a.extent =
      extSum (pre1 ++ [Block.mk (a.extent + b.extent + c.extent - newSize - 24) false]) +
        (a.extent - (a.extent + b.extent + c.extent - newSize - 24)) from by
    rw [extSum_append, extSum_cons, extSum_nil]
    simp only []
    ring]
  rw [show pre1 ++ Block.mk (a.extent + b.extent + c.extent - newSize - 24) false ::
      Block.mk (a.extent - (a.extent + b.extent + c.extent - newSize - 24)) false ::
      b :: c :: post1 =
      (pre1 ++ [Block.mk (a.extent + b.extent + c.extent - newSize - 24) false]) ++
      Block.mk (a.extent - (a.extent + b.extent + c.extent - newSize - 24)) false ::
      b :: c :: post1 from by simp]
  rw [hcore]
  rw [show a.extent - (a.extent + b.extent + c.extent - newSize - 24) + b.extent + c.extent =
      newSize + prefixSize + suffixSize from by rw [hP, hS]; ring]
  rw [show extSum (pre1 ++ [Block.mk (a.extent + b.extent + c.extent - newSize - 24) false]) =
      extSum pre1 + (a.extent + b.extent + c.extent - newSize - 24) from by
    rw [extSum_append, extSum_cons, extSum_nil]
    simp only []
    ring]
  simp

theorem mergeBothTrimNext_run (st : ArenaState) (newSize : Int) (pre1 : List Block)
    (a b c : Block) (post1 : List Block)
    (hdec : st.blocks = pre1 ++ a :: b :: c :: post1)
    (hgood : ∀ d ∈ st.blocks, GoodBlock d)
    (hsum3 : a.extent + b.extent + c.extent ≤ DEFAULT_BRKSIZE)
    (haf : a.allocated = false)
    (h8n : (8 : Int) ∣ newSize)
    (hvia : usableSpace b + usableSpace a + 48 ≤ newSize)
    (hviaN : newSize - usableSpace b - usableSpace a + 8 ≤ usableSpace c) :
    mergeBothTrimNext st (extSum pre1 + a.extent) (extSum pre1 + a.extent + b.extent)
      (usableSpace b) (usableSpace c) (usableSpace a) newSize =
      .ok (some (extSum pre1 + prefixSize),
        ⟨pre1 ++ ⟨newSize + prefixSize + suffixSize, true⟩ ::
          ⟨a.extent + b.extent + c.extent - newSize - 24, false⟩ :: post1, st.mem⟩) := by
  have hP : prefixSize = 16 := rfl
  have hS : suffixSize = 8 := rfl
  have hB : DEFAULT_BRKSIZE = 1048576 := rfl
  have hga := hgood a (by rw [hdec]; simp)
  have hgb := hgood b (by rw [hdec]; simp)
  have hgc := hgood c (by rw [hdec]; simp)
  have hga1 := hga.1
  have hga2 := hga.2
  have hgb1 := hgb.1
  have hgb2 := hgb.2
  have hgc1 := hgc.1
  have hgc2 := hgc.2
  have hUa : usableSpace a = a.extent - (prefixSize + suffixSize) := rfl
  have hUb : usableSpace b = b.extent - (prefixSize + suffixSize) := rfl
  have hUc : usableSpace c = c.extent - (prefixSize + suffixSize) := rfl
  have hpos : ∀ d ∈ st.blocks, 0 < d.extent := fun d hd => good_pos d (hgood d hd)
  have hpre : ∀ d ∈ pre1, 0 < d.extent := fun d hd => hpos d (by rw [hdec]; simp [hd])
  have hprenn : 0 ≤ extSum pre1 := extSum_nonneg pre1 hpre
  have hmiss : cInt (align8 (cSize (usableSpace b + usableSpace a))) =
      usableSpace b + usableSpace a := by
    rw [cSize_id _ (by omega) (by omega)]
    rw [align8_of_dvd _ (by omega)]
    rw [cInt_id _ (by omega) (by omega)]
  have haS : align8 (cInt (cSize (newSize - (usableSpace b + usableSpace a)))) =
      newSize - (usableSpace b + usableSpace a) := by
    rw [cSize_id _ (by omega) (by omega)]
    rw [cInt_id _ (by omega) (by omega)]
    rw [align8_of_dvd _ (by omega)]
  have htest : cSize (newSize - (usableSpace b + usableSpace a) + 8) ≤
      cSize (usableSpace c) := by
    rw [cSize_id _ (by omega) (by omega), cSize_id _ (by omega) (by omega)]
    omega
  have hk8 : newSize - (usableSpace b + usableSpace a) - (prefixSize + suffixSize) =
      newSize - a.extent - b.extent + 24 := by
    rw [hUa, hUb, hP, hS]; ring
  have hseekC : seek st.blocks (extSum pre1 + a.extent + b.extent) =
      some (pre1 ++ [a, b], c, post1) := by
    rw [hdec]
    have h2 := seek_pre (pre1 ++ [a, b]) c post1 (by
      intro d hd
      rcases List.mem_append.mp hd with h | h
      · exact hpre d h
      · simp at h
        rcases h with h | h
        · subst h; omega
        · subst h; omega)
    rw [show extSum (pre1 ++ [a, b]) = extSum pre1 + a.extent + b.extent from by
      rw [extSum_append, extSum_cons, extSum_cons, extSum_nil]; ring] at h2
    simpa using h2
  have hsplit : splitBlockAt st (extSum pre1 + a.extent + b.extent)
      (newSize - a.extent - b.extent + 24) =
      .ok ⟨(pre1 ++ [a, b]) ++ Block.mk (newSize - a.extent - b.extent + 24) false ::
        Block.mk (c.extent - (newSize - a.extent - b.extent + 24)) false :: post1, st.mem⟩ := by
    unfold splitBlockAt seekE makeFreeBlock
    simp only [hseekC, bindOk]
    rw [if_pos (by omega), bindOk, if_pos (by omega), bindOk]
  have hgoodG : ∀ d ∈ pre1 ++ a :: b :: Block.mk (newSize - a.extent - b.extent + 24) false ::
      Block.mk (c.extent - (newSize - a.extent - b.extent + 24)) false :: post1,
      GoodBlock d := by
    intro d hd
    simp only [List.mem_append, List.mem_cons] at hd
    rcases hd with hd | hd | hd | hd | hd | hd
    · exact hgood d (by rw [hdec]; simp [hd])
    · subst hd; exact hga
    · subst hd; exact hgb
    · subst hd; exact ⟨by simp only []; omega, by simp only []; omega⟩
    · subst hd; exact ⟨by simp only []; omega, by simp only []; omega⟩
    · exact hgood d (by rw [hdec]; simp [hd])
  have hcore := freeMergeBoth st.mem pre1 a b
    (Block.mk (newSize - a.extent - b.extent + 24) false)
    (Block.mk (c.extent - (newSize - a.extent - b.extent + 24)) false :: post1)
    hgoodG haf rfl
  simp only [] at hcore
  unfold mergeBothTrimNext
  simp only []
  rw [hmiss, haS]
  rw [if_pos htest]
  rw [hk8, hsplit, bindOk]
  rw [show (pre1 ++ [a, b]) ++ Block.mk (newSize - a.extent - b.extent + 24) false ::
      Block.mk (c.extent - (newSize - a.extent - b.extent + 24)) false :: post1 =
      pre1 ++ a :: b :: Block.mk (newSize - a.extent - b.extent + 24) false ::
      Block.mk (c.extent - (newSize - a.extent - b.extent + 24)) false :: post1 from by simp]
  rw [hcore]
  rw [show a.extent + b.extent + (newSize - a.extent - b.extent + 24) =
      newSize + prefixSize + suffixSize from by rw [hP, hS]; ring]
  rw [show c.extent - (newSize - a.extent - b.extent + 24) =
      a.extent + b.extent + c.extent - newSize - 24 from by ring]

/-- Claim C7 (refuted as stated in its tie case): in the three-way merge of
resizeRegionExtra, when the predecessor and the successor have EQUAL usable
space (here 1000 and 1000, current block usable 256, newSize 2000), the
code trims the successor, not the predecessor: the returned region starts
at the predecessor's old position (offset 48) and the trimmed free leftover
(extent 304) sits after the merged block.  Trimming the predecessor would
instead leave the leftover before the merged block and return region 352. -/
theorem threeWayMerge_tie_cex :
    runBlocks (resizeRegionExtra
        ⟨[⟨32, true⟩, ⟨1024, false⟩, ⟨280, true⟩, ⟨1024, false⟩, ⟨1046216, true⟩], memZero⟩
        (some 1072) 2000) =
      .ok (some 48, [⟨32, true⟩, ⟨2024, true⟩, ⟨304, false⟩, ⟨1046216, true⟩]) ∧
    runBlocks (resizeRegionExtra
        ⟨[⟨32, true⟩, ⟨1024, false⟩, ⟨280, true⟩, ⟨1024, false⟩, ⟨1046216, true⟩], memZero⟩
        (some 1072) 2000) ≠
      .ok (some 352, [⟨32, true⟩, ⟨304, false⟩, ⟨2024, true⟩, ⟨1046216, true⟩]) := by
  refine ⟨by decide, by decide⟩

/-- Claim C7 (corrected).  In resizeRegionExtra's three-way merge (both
neighbors free, neither single merge suffices, combined usable space covers
newSize), the neighbor with STRICTLY larger usable space is the one
trimmed, and on a tie the SUCCESSOR is trimmed (the code tests
usableSpacePast > usableSpaceNext): when the successor's usable space is
below the predecessor's, the predecessor is trimmed to a leading free block
and the merged allocated block of usable space exactly newSize follows it;
otherwise -- including the tie -- the merged block starts at the
predecessor's position and the successor's remainder survives as a trailing
free block. -/
theorem threeWayMerge_trim_spec (st : ArenaState) (rOff newSize : Int) (pre1 : List Block)
    (a b c : Block) (post1 : List Block)
    (hv : ValidArena st.blocks)
    (hdec : st.blocks = pre1 ++ a :: b :: c :: post1)
    (hoff : rOff = extSum pre1 + a.extent + prefixSize)
    (haf : a.allocated = false) (hcf : c.allocated = false)
    (h8n : (8 : Int) ∣ newSize)
    (hNC : usableSpace c + usableSpace b < newSize)
    (hPC : usableSpace a + usableSpace b < newSize)
    (hsum : newSize ≤ usableSpace a + usableSpace c + usableSpace b)
    (hviaA : usableSpace c < usableSpace a →
      usableSpace b + usableSpace c + 48 ≤ newSize)
    (hviaB : usableSpace a ≤ usableSpace c →
      usableSpace b + usableSpace a + 48 ≤ newSize ∧
      newSize - usableSpace b - usableSpace a + 8 ≤ usableSpace c) :
    (usableSpace c < usableSpace a →
      resizeRegionExtra st (some rOff) newSize =
        .ok (some (extSum pre1 + (a.extent + b.extent + c.extent - newSize - 24) + prefixSize),
          ⟨pre1 ++ ⟨a.extent + b.extent + c.extent - newSize - 24, false⟩ ::
            ⟨newSize + prefixSize + suffixSize, true⟩ :: post1, st.mem⟩)) ∧
    (usableSpace a ≤ usableSpace c →
      resizeRegionExtra st (some rOff) newSize =
        .ok (some (extSum pre1 + prefixSize),
          ⟨pre1 ++ ⟨newSize + prefixSize + suffixSize, true⟩ ::
            ⟨a.extent + b.extent + c.extent - newSize - 24, false⟩ :: post1, st.mem⟩)) := by
  have hgood := hv.2.1
  have hpos : ∀ d ∈ st.blocks, 0 < d.extent := fun d hd => good_pos d (hgood d hd)
  have hP : prefixSize = 16 := rfl
  have hS : suffixSize = 8 := rfl
  have hIM : INT_MAX = 2 ^ 31 - 1 := rfl
  have hBn : DEFAULT_BRKSIZE = 1048576 := rfl
  have hdecA : st.blocks = (pre1 ++ [a]) ++ b :: c :: post1 := by rw [hdec]; simp
  have hext : extSum (pre1 ++ [a]) = extSum pre1 + a.extent := by
    rw [extSum_append, extSum_cons, extSum_nil]; ring
  have hposPre : ∀ d ∈ pre1 ++ [a], 0 < d.extent :=
    fun d hd => hpos d (by rw [hdecA]; exact List.mem_append.mpr (.inl hd))
  have hpre1 : ∀ d ∈ pre1, 0 < d.extent :=
    fun d hd => hposPre d (List.mem_append.mpr (.inl hd))
  have hoffA : rOff = extSum (pre1 ++ [a]) + prefixSize := by rw [hext]; exact hoff
  have hO := resizeOldSize_at st rOff (pre1 ++ [a]) b (c :: post1) hdecA hposPre hoffA
  have hBa := valid_block_bounds st.blocks hv a (by rw [hdec]; simp)
  have hBb := valid_block_bounds st.blocks hv b (by rw [hdec]; simp)
  have hBc := valid_block_bounds st.blocks hv c (by rw [hdec]; simp)
  have hga1 := (hgood a (by rw [hdec]; simp)).1
  have hgb1 := (hgood b (by rw [hdec]; simp)).1
  have hgc1 := (hgood c (by rw [hdec]; simp)).1
  have hUa : usableSpace a = a.extent - (prefixSize + suffixSize) := rfl
  have hUb : usableSpace b = b.extent - (prefixSize + suffixSize) := rfl
  have hUc : usableSpace c = c.extent - (prefixSize + suffixSize) := rfl
  have hprenn : 0 ≤ extSum pre1 := extSum_nonneg pre1 hpre1
  have hpostn : 0 ≤ extSum post1 :=
    extSum_nonneg post1 (fun d hd => hpos d (by rw [hdec]; simp [hd]))
  have hsum3 : a.extent + b.extent + c.extent ≤ DEFAULT_BRKSIZE := by
    have h3 := hv.2.2
    rw [hdec, extSum_append, extSum_cons, extSum_cons, extSum_cons] at h3
    omega
  have hci : cInt (usableSpace b) = usableSpace b := cInt_id _ (by omega) (by omega)
  have hcs : cSize (usableSpace b) = usableSpace b := cSize_id _ (by omega) (by omega)
  have hcond : ¬ (newSize ≤ cSize (cInt (usableSpace b))) := by rw [hci, hcs]; omega
  have h1 : rOff - prefixSize = extSum pre1 + a.extent := by omega
  have hbpos : 0 < b.extent := hpos b (by rw [hdec]; simp)
  have hcpos : 0 < c.extent := hpos c (by rw [hdec]; simp)
  have hnext := getNextBlock_mid st (pre1 ++ [a]) b c post1 hdecA hposPre hcpos hpostn
  rw [hext] at hnext
  have hseekb : seek st.blocks (extSum (pre1 ++ [a])) = some (pre1 ++ [a], b, c :: post1) := by
    rw [hdecA]; exact seek_pre (pre1 ++ [a]) b (c :: post1) hposPre
  have hseekc : seek st.blocks (extSum (pre1 ++ [a]) + b.extent) =
      some ((pre1 ++ [a]) ++ [b], c, post1) := by
    rw [hdecA]
    have h2 := seek_pre ((pre1 ++ [a]) ++ [b]) c post1 (by
      intro d hd
      rcases List.mem_append.mp hd with h | h
      · exact hposPre d h
      · simp at h; subst h; exact hbpos)
    rw [extSum_append, extSum_cons, extSum_nil] at h2
    simpa using h2
  have hcb : blockAtE st (extSum (pre1 ++ [a])) = .ok b := by
    unfold blockAtE seekE
    simp only [hseekb]
    rfl
  have hcat : blockAtE st (extSum (pre1 ++ [a]) + b.extent) = .ok c := by
    unfold blockAtE seekE
    simp only [hseekc]
    rfl
  have husN : computeUsableSpaceE st (some (extSum (pre1 ++ [a]) + b.extent)) =
      .ok (usableSpace c) := by
    unfold computeUsableSpaceE blockAtE seekE
    simp only [hseekc]
    rfl
  rw [hext] at hcb hcat husN
  have hNCc : ¬ (newSize ≤ cSize (cInt (cSize (usableSpace c + usableSpace b)))) := by
    rw [cSize_id (usableSpace c + usableSpace b) (by omega) (by omega),
      cInt_id (usableSpace c + usableSpace b) (by omega) (by omega),
      cSize_id (usableSpace c + usableSpace b) (by omega) (by omega)]
    omega
  have hprev := getPrevBlock_at st pre1 a b (c :: post1) hdec hpre1 (by omega) (by omega)
  have hseeka : seek st.blocks (extSum pre1) = some (pre1, a, b :: c :: post1) := by
    rw [hdec]; exact seek_pre pre1 a (b :: c :: post1) hpre1
  have hcaa : blockAtE st (extSum pre1) = .ok a := by
    unfold blockAtE seekE
    simp only [hseeka]
    rfl
  have husP : computeUsableSpaceE st (some (extSum pre1)) = .ok (usableSpace a) := by
    unfold computeUsableSpaceE blockAtE seekE
    simp only [hseeka]
    rfl
  have hPCc : ¬ (newSize ≤ cSize (cInt (cSize (usableSpace a + usableSpace b)))) := by
    rw [cSize_id (usableSpace a + usableSpace b) (by omega) (by omega),
      cInt_id (usableSpace a + usableSpace b) (by omega) (by omega),
      cSize_id (usableSpace a + usableSpace b) (by omega) (by omega)]
    omega
  have hsumc : newSize ≤ cSize (cInt (cSize (usableSpace a + usableSpace c + usableSpace b))) := by
    rw [cSize_id (usableSpace a + usableSpace c + usableSpace b) (by omega) (by omega),
      cInt_id (usableSpace a + usableSpace c + usableSpace b) (by omega) (by omega),
      cSize_id (usableSpace a + usableSpace c + usableSpace b) (by omega) (by omega)]
    omega
  have route : resizeRegionExtra st (some rOff) newSize =
      (if cSize (usableSpace c) < cSize (usableSpace a) then
        mergeBothTrimPrev st (extSum pre1 + a.extent) (extSum pre1)
          (usableSpace b) (usableSpace c) (usableSpace a) newSize
      else
        mergeBothTrimNext st (extSum pre1 + a.extent) (extSum pre1 + a.extent + b.extent)
          (usableSpace b) (usableSpace c) (usableSpace a) newSize) := by
    unfold resizeRegionExtra
    rw [hO, bindOk, if_neg hcond]
    simp only [h1, hnext, bindOk, husN, hcb, hcat, hcf, Bool.not_false, pure_eq_ok, bindOk]
    rw [if_neg hNCc]
    unfold rrxAfterNext
    simp only [h1, hprev, bindOk, husP, hcaa, haf, Bool.not_false, pure_eq_ok, bindOk]
    rw [if_neg hPCc]
    rw [if_pos hsumc]
  constructor
  · intro huNP
    rw [route, if_pos (by
      rw [cSize_id _ (by omega) (by omega), cSize_id _ (by omega) (by omega)]
      exact huNP)]
    exact mergeBothTrimPrev_run st newSize pre1 a b c post1 hdec hgood hsum3 haf hcf h8n
      (hviaA huNP) (by omega)
  · intro huPN
    rw [route, if_neg (by
      rw [cSize_id _ (by omega) (by omega), cSize_id _ (by omega) (by omega)]
      omega)]
    exact mergeBothTrimNext_run st newSize pre1 a b c post1 hdec hgood hsum3 haf h8n
      (hviaB huPN).1 (hviaB huPN).2

/-- Witness for threeWayMerge_trim_spec: the tie arena (neighbors usable
1000 and 1000, current 256, newSize 2000) lands in the successor-trim
conjunct, and an arena with predecessor usable 2000 against successor 1000
(newSize 3000) lands in the predecessor-trim conjunct. -/
theorem threeWayMerge_trim_spec_witness :
    resizeRegionExtra
        ⟨[⟨32, true⟩, ⟨1024, false⟩, ⟨280, true⟩, ⟨1024, false⟩, ⟨1046216, true⟩], memZero⟩
        (some 1072) 2000 =
      .ok (some 48, ⟨[⟨32, true⟩, ⟨2024, true⟩, ⟨304, false⟩, ⟨1046216, true⟩], memZero⟩) ∧
    resizeRegionExtra
        ⟨[⟨32, true⟩, ⟨2024, false⟩, ⟨280, true⟩, ⟨1024, false⟩, ⟨1045216, true⟩], memZero⟩
        (some 2072) 3000 =
      .ok (some 352, ⟨[⟨32, true⟩, ⟨304, false⟩, ⟨3024, true⟩, ⟨1045216, true⟩], memZero⟩) := by
  constructor
  · have h := threeWayMerge_trim_spec
      ⟨[⟨32, true⟩, ⟨1024, false⟩, ⟨280, true⟩, ⟨1024, false⟩, ⟨1046216, true⟩], memZero⟩
      1072 2000 [⟨32, true⟩] ⟨1024, false⟩ ⟨280, true⟩ ⟨1024, false⟩ [⟨1046216, true⟩]
      (by decide) rfl (by decide) rfl rfl (by decide) (by decide) (by decide) (by decide)
      (by decide) (by decide)
    exact h.2 (by decide)
  · have h := threeWayMerge_trim_spec
      ⟨[⟨32, true⟩, ⟨2024, false⟩, ⟨280, true⟩, ⟨1024, false⟩, ⟨1045216, true⟩], memZero⟩
      2072 3000 [⟨32, true⟩] ⟨2024, false⟩ ⟨280, true⟩ ⟨1024, false⟩ [⟨1045216, true⟩]
      (by decide) rfl (by decide) rfl rfl (by decide) (by decide) (by decide) (by decide)
      (by decide) (by decide)
    exact h.1 (by decide)
